import Mathlib

/-!
# IPE: inter-process coordination through a file of fixed-size records

Shallow embedding of `src/ipe.h` and `src/ipe.cpp`, and properties of it.

* The coordination file is a list of records (`File`); `fread`/`fwrite` of the raw
  `Entry` struct are the identity on records, and the status field of a record on file
  is one of the three enumerators.
* A handle (`Worker`) is an explicit value; every method takes the handle and the
  current file content and returns the new handle and/or the new file content.
* C++ `int` is a 32-bit two's-complement integer with wrap-around (`toInt32`),
  `std::size_t` is an unsigned 64-bit integer (`toSizeT`). Where a property needs an `int`
  counter or result to be exact, the quantity it stands for is assumed to fit.
* `std::string` / `const char *` are lists of bytes; `std::hash<std::string>` is a
  parameter.
* Loops that may spin forever (`rendezvous`, `select`, `wait_for_lock`) take a fuel
  argument that bounds the number of loop iterations; `none` means that the fuel ran out.
* Several handles on one file are a `World` (whole calls, one after the other) or a `Sys`
  (the file accesses of `acquire_lock` and `unlock` interleaved).
* The free-for-all initialisation runs on a file system of named files (`Fs`).
-/

namespace ipe

/-! ## Data model (ipe.h) -/

/-- Worker status, `enum class Status` (ipe.h:25). -/
inductive Status where
  | None
  | Ready
  | Stopped
  deriving DecidableEq, Repr

/-- Error codes, `enum class Errors` (ipe.h:37). -/
inductive Errors where
  | Success
  | MissingFile
  | Locked
  | TimedOut
  | ReadOnlyFs
  deriving DecidableEq, Repr

/-- Capacity of the name buffer (ipe.h:49). -/
def NAME_SIZE : Nat := 16

/-- Capacity of the value buffer (ipe.h:50). -/
def VALUE_SIZE : Nat := 64

/-- One record of the file, `struct Entry` (ipe.h:53). Buffers are lists of bytes. -/
structure Entry where
  name : List Nat
  status : Status
  time : Nat
  lock : Nat
  value : List Nat
  deriving DecidableEq, Repr

/-- The default-initialised `Entry` (all member initialisers of ipe.h:54-58); it is also
the record that a run of zero bytes on file decodes to. -/
def Entry.zero : Entry :=
  { name := List.replicate NAME_SIZE 0, status := Status.None, time := 0, lock := 0,
    value := List.replicate VALUE_SIZE 0 }

/-- The record `e` with its lock flag replaced by `l`. -/
def Entry.with_lock (e : Entry) (l : Nat) : Entry := { e with lock := l }

/-- Content of a coordination file: records back-to-back, no header. -/
abbrev File := List Entry

/-! ## Machine integers -/

/-- Value of a C++ `int` after an operation whose mathematical result is `x`
(32-bit two's complement, wrap-around). -/
def toInt32 (x : Int) : Int := (x + 2147483648) % 4294967296 - 2147483648

/-- Conversion of a C++ `int` to `std::size_t` (unsigned 64-bit). -/
def toSizeT (x : Int) : Nat := (x % 18446744073709551616).toNat

/-! ## stdio on a file of records -/

/-- Model of `fseek(h, 0, SEEK_SET); fread(data, sizeof(Entry), n, h)`: the first
`n` records of the file overwrite the front of `data`; when the file is shorter the
remaining elements of `data` keep their value. -/
def fread (file : File) (n : Nat) (data : List Entry) : List Entry :=
  file.take n ++ data.drop (file.take n).length

/-- Model of `fseek(h, sizeof(Entry) * pos, SEEK_SET); fwrite(e, sizeof(Entry), 1, h)`:
record `pos` is overwritten; writing past the end extends the file with zero bytes. -/
def fwrite_at (file : File) (pos : Nat) (e : Entry) : File :=
  if pos < file.length then file.set pos e
  else file ++ List.replicate (pos - file.length) Entry.zero ++ [e]

/-- Model of `memcpy(dst, src, n)` on byte buffers. -/
def memcpy (dst src : List Nat) (n : Nat) : List Nat :=
  src.take n ++ dst.drop (src.take n).length

/-- Model of `strlen`. -/
def strlen (p : List Nat) : Nat := (p.takeWhile (fun b => b ≠ 0)).length

/-- Model of `std::string(const char *)`: the bytes before the first zero byte. -/
def c_str (buf : List Nat) : List Nat := buf.takeWhile (fun b => b ≠ 0)

/-! ## The handle (ipe.h:72, ipe.cpp:128-309) -/

/-- State of a `Worker` object. `handle` tells whether `fopen(path, "r+")` gave a
non-null `FILE *`. `static_e` is the function-local static `Entry` that `worker()`
hands out for a monitor (one handle per process). -/
structure Worker where
  worker_id : Int
  n_worker : Nat
  handle : Bool
  data : List Entry
  static_e : Entry
  deriving DecidableEq, Repr

/-- `Worker::is_worker` (ipe.h:78). -/
def Worker.is_worker (w : Worker) : Bool :=
  decide (0 ≤ w.worker_id) && decide (w.worker_id.toNat < w.data.length)

/-- `Worker::is_monitor` (ipe.h:80). -/
def Worker.is_monitor (w : Worker) : Bool := !w.is_worker

/-- `Worker::worker()` read through the reference (ipe.h:120). -/
def Worker.worker (w : Worker) : Entry :=
  if w.is_monitor then w.static_e else w.data.getD w.worker_id.toNat Entry.zero

/-- Assignment through the reference returned by `Worker::worker()` (ipe.h:120). -/
def Worker.modify_worker (w : Worker) (f : Entry → Entry) : Worker :=
  if w.is_monitor then { w with static_e := f w.static_e }
  else { w with data := w.data.set w.worker_id.toNat (f w.worker) }

/-- `Worker::set_status` (ipe.cpp:148). -/
def Worker.set_status (w : Worker) (s : Status) : Worker :=
  w.modify_worker (fun e => { e with status := s })

/-- `Worker::set_time` (ipe.cpp:150). -/
def Worker.set_time (w : Worker) (t : Nat) : Worker :=
  w.modify_worker (fun e => { e with time := t % 18446744073709551616 })

/-- `Worker::set_name(const char *, std::size_t)` (ipe.cpp:156). -/
def Worker.set_name (w : Worker) (name : List Nat) (size : Nat) : Worker :=
  w.modify_worker (fun e =>
    { e with name := memcpy e.name name (if size > NAME_SIZE then NAME_SIZE else size) })

/-- `Worker::set_name(const char *)` (ipe.cpp:154). -/
def Worker.set_name_cstr (w : Worker) (name : List Nat) : Worker :=
  w.set_name name (strlen name)

/-- `Worker::set_name(std::string const &)` (ipe.cpp:152). -/
def Worker.set_name_string (w : Worker) (name : List Nat) : Worker :=
  w.set_name name name.length

/-- `Worker::set_data` (ipe.cpp:160). -/
def Worker.set_data (w : Worker) (value : List Nat) (size : Nat) : Worker :=
  w.modify_worker (fun e =>
    { e with value := memcpy e.value value (if size > VALUE_SIZE then VALUE_SIZE else size) })

/-- `Worker::read` (ipe.cpp:223). -/
def Worker.read (w : Worker) (file : File) : Errors × Worker :=
  if !w.handle then (Errors.MissingFile, w)
  else (Errors.Success, { w with data := fread file w.n_worker w.data })

/-- `Worker::write` (ipe.cpp:233). The handle itself is not modified. -/
def Worker.write (w : Worker) (file : File) : Errors × File :=
  if w.is_monitor then (Errors.Success, file)
  else if !w.handle then (Errors.MissingFile, file)
  else (Errors.Success, fwrite_at file w.worker_id.toNat w.worker)

/-- `Worker::Worker` (ipe.cpp:128). `n` is the content of the file at the path, or
`none` when `fopen(path, "r+")` fails. -/
def Worker.ctor (wid : Int) (n : Option File) (n_w : Nat) : Worker × Option File :=
  let w0 : Worker :=
    { worker_id := wid, n_worker := n_w, handle := n.isSome,
      data := List.replicate n_w Entry.zero, static_e := Entry.zero }
  if w0.is_worker then
    let w1 := w0.modify_worker (fun e => { e with status := Status.Ready })
    match n with
    | none => (w1, none)
    | some file => (w1, some (w1.write file).2)
  else (w0, n)

/-- `Worker::unlock` (ipe.cpp:211). -/
def Worker.unlock (w : Worker) (file : File) : Errors × Worker × File :=
  if w.is_monitor then (Errors.Success, w, file)
  else if w.worker.lock > 0 then
    let w1 := w.modify_worker (fun e => { e with lock := 0 })
    (Errors.Success, w1, (w1.write file).2)
  else (Errors.Success, w, file)

/-- `Worker::~Worker` (ipe.cpp:139): the file content after the destructor ran. -/
def Worker.dtor (w : Worker) (file : File) : File :=
  if w.is_worker then
    let u := w.unlock file
    let w2 := u.2.1.modify_worker (fun e => { e with status := Status.Stopped })
    (w2.write u.2.2).2
  else file

/-- The loop of `Worker::values` (ipe.cpp:172-178). -/
def values_loop (data : List Entry) : List (List Nat) :=
  data.foldl (fun v entry => let r := c_str entry.value; if r = [] then v else v ++ [r]) []

/-- `Worker::values` (ipe.cpp:164). -/
def Worker.values (w : Worker) (file : File) : List (List Nat) × Worker :=
  if !w.handle then ([], w)
  else
    let w1 := (w.read file).2
    (values_loop w1.data, w1)

/-- The counting loop of `Worker::acquire_lock` (ipe.cpp:198-201), `int locks`. -/
def count_locks (data : List Entry) : Int :=
  data.foldl (fun locks entry => toInt32 (locks + (entry.lock : Int))) 0

/-- First half of `Worker::acquire_lock` for a worker with an open file
(ipe.cpp:194-195): set the own flag and `write()`. -/
def Worker.acquire_lock_begin (w : Worker) (file : File) : Worker × File :=
  let w1 := w.modify_worker (fun e => { e with lock := 1 })
  (w1, (w1.write file).2)

/-- Second half of `Worker::acquire_lock` (ipe.cpp:196-208): `read()`, count, decide. -/
def Worker.acquire_lock_end (w : Worker) (file : File) : Errors × Worker :=
  let w2 := (w.read file).2
  if count_locks w2.data > 1 then
    (Errors.Locked, w2.modify_worker (fun e => { e with lock := 0 }))
  else (Errors.Success, w2)

/-- `Worker::acquire_lock` (ipe.cpp:183), run without interference. -/
def Worker.acquire_lock (w : Worker) (file : File) : Errors × Worker × File :=
  if w.is_monitor then (Errors.Success, w, file)
  else if !w.handle then (Errors.MissingFile, w, file)
  else
    let b := w.acquire_lock_begin file
    let r := b.1.acquire_lock_end b.2
    (r.1, r.2, b.2)

/-- The counting loop of `Worker::rendezvous` (ipe.cpp:297-302) for one status:
`count += entry.status == s` on an `int`. -/
def count_status (s : Status) (data : List Entry) : Int :=
  data.foldl (fun c entry => toInt32 (c + (if entry.status = s then 1 else 0))) 0

/-- The `do ... while` loop of `Worker::rendezvous` (ipe.cpp:287-307). Each unit of fuel
pays for one iteration, that is for one `read()`. The file is not changed by anybody
else while the loop runs. -/
def Worker.rendezvous_loop :
    Nat → Worker → File → Int → Int → Int → Option (Int × Worker)
  | 0, _, _, _, _, _ => none
  | fuel + 1, w, file, timeout, passed, ready =>
    let passed1 := if ready ≠ 0 then toInt32 (passed + 1) else passed
    let w1 := (w.read file).2
    let ready1 := count_status Status.Ready w1.data
    let stopped1 := count_status Status.Stopped w1.data
    if timeout > 0 ∧ passed1 > timeout then some (ready1, w1)
    else if toSizeT (toInt32 (ready1 + stopped1)) ≠ w1.n_worker then
      Worker.rendezvous_loop fuel w1 file timeout passed1 ready1
    else some (ready1, w1)

/-- `Worker::rendezvous` (ipe.cpp:279). `fuel` bounds the number of reads. -/
def Worker.rendezvous (fuel : Nat) (w : Worker) (file : File) (timeout : Int) :
    Option (Int × Worker) :=
  if !w.handle then some (0, w)
  else w.rendezvous_loop fuel file timeout 0 0

/-- The `do ... while` loop of `Worker::select` (ipe.cpp:254-257). `none` when the fuel
runs out, or when `data[k]` is out of bounds. -/
def select_loop : Nat → List Entry → Nat → Int → Int → Option Int
  | 0, _, _, _, _ => none
  | fuel + 1, data, n_worker, offset, i =>
    let k := toInt32 ((toSizeT (toInt32 (offset + i)) % n_worker : Nat) : Int)
    let i1 := toInt32 (i + 1)
    if 0 ≤ k then
      match data[k.toNat]? with
      | some entry =>
        if entry.status ≠ Status.Ready then select_loop fuel data n_worker offset i1
        else some k
      | none => none
    else none

/-- `Worker::select` (ipe.cpp:247). `hash` stands for `std::hash<std::string>`, whose
64-bit result is truncated to `int`. `none` also when `n_worker = 0` (division by zero). -/
def Worker.select (hash : List Nat → Nat) (fuel : Nat) (w : Worker) (file : File)
    (key : List Nat) : Option (Int × Worker) :=
  let offset := toInt32 ((hash key % 18446744073709551616 : Nat) : Int)
  let w1 := (w.read file).2
  if w1.n_worker = 0 then none
  else (select_loop fuel w1.data w1.n_worker offset 0).map (fun k => (k, w1))

/-! ## Initialisation (ipe.cpp:97) -/

/-- `init_ipe` (ipe.cpp:97) seen from the path it is given: `can_open` tells whether
`fopen(name, "w")` succeeds, `disk` is what the path held before. -/
def init_ipe (can_open : Bool) (disk : Option File) (n_worker : Nat) : Errors × Option File :=
  if !can_open then (Errors.ReadOnlyFs, disk)
  else (Errors.Success, some (List.replicate n_worker Entry.zero))

/-! ## Well-formed handles and exact counts -/

/-- A handle with an open file on a coordination file of `N` records: `fopen` succeeded,
the handle was built for `N` workers, and its vector holds `N` records (the constructor
allocates `n_w` of them and nothing ever resizes it). -/
def Worker.opened (w : Worker) (N : Nat) : Prop :=
  w.handle = true ∧ w.n_worker = N ∧ w.data.length = N

instance (w : Worker) (N : Nat) : Decidable (w.opened N) := by
  unfold Worker.opened; infer_instance

/-- Number of slots of a snapshot that have status `s`. -/
def status_count (s : Status) (data : List Entry) : Nat :=
  data.countP (fun e => decide (e.status = s))

/-- Sum of the lock flags of a list of records. -/
def lock_sum (data : List Entry) : Nat := (data.map Entry.lock).sum

/-- Opening handles one after the other on the same path (`Worker::Worker` for each index
of `ids`, in that order): the handles and the final file content. -/
def open_workers : List Int → Option File → Nat → List Worker × Option File
  | [], disk, _ => ([], disk)
  | wid :: rest, disk, n_w =>
    let c := Worker.ctor wid disk n_w
    let r := open_workers rest c.2 n_w
    (c.1 :: r.1, r.2)

/-! ## The demonstration driver (main.cpp) -/

/-- Bytes of the string literal `"new_worker"`, with its terminating zero. -/
def main_name : List Nat := [110, 101, 119, 95, 119, 111, 114, 107, 101, 114, 0]

/-- File after `ipe::init_ipe("status", 5)` (main.cpp:13) on a fresh path. -/
def main_init : Option File := (init_ipe true none 5).2

/-- Handle and file after `ipe::Worker w(4, "status", 5)` (main.cpp:14). -/
def main_open : Worker × Option File := Worker.ctor 4 main_init 5

/-- Handle and file after `set_name("new_worker"); set_time(10); write()` (main.cpp:18-20). -/
def main_publish : Worker × File :=
  let w := (main_open.1.set_name_cstr main_name).set_time 10
  (w, (w.write (main_open.2.getD [])).2)

/-- One round of the loop of main.cpp:22-24: worker `i` is constructed and destroyed. -/
def open_close (i : Int) (file : File) (n : Nat) : File :=
  let c := Worker.ctor i (some file) n
  c.1.dtor (c.2.getD file)

/-- `Worker::status` (ipe.cpp:262), without the text it prints: the error code and the
handle after its `read()`. -/
def Worker.status (w : Worker) (file : File) : Errors × Worker :=
  if !w.handle then (Errors.MissingFile, w)
  else (Errors.Success, (w.read file).2)

/-- A call of a public method of `Worker` (ipe.h:82-117). `rendezvous` and `select` carry
the fuel granted to their loop. -/
inductive Call where
  | set_status (s : Status)
  | set_time (t : Nat)
  | set_name (name : List Nat) (size : Nat)
  | set_data (value : List Nat) (size : Nat)
  | values
  | acquire_lock
  | unlock
  | read
  | write
  | status
  | rendezvous (fuel : Nat) (timeout : Int)
  | select (fuel : Nat) (key : List Nat)
  deriving DecidableEq, Repr

/-- The four in-memory mutators. -/
def Call.is_setter : Call → Bool
  | Call.set_status _ => true
  | Call.set_time _ => true
  | Call.set_name _ _ => true
  | Call.set_data _ _ => true
  | _ => false

/-- Effect of one call on the handle and on the file; `none` when the call does not
return within its fuel. -/
def Worker.call (hash : List Nat → Nat) (w : Worker) (file : File) :
    Call → Option (Worker × File)
  | Call.set_status s => some (w.set_status s, file)
  | Call.set_time t => some (w.set_time t, file)
  | Call.set_name name size => some (w.set_name name size, file)
  | Call.set_data value size => some (w.set_data value size, file)
  | Call.values => some ((w.values file).2, file)
  | Call.acquire_lock => some ((w.acquire_lock file).2.1, (w.acquire_lock file).2.2)
  | Call.unlock => some ((w.unlock file).2.1, (w.unlock file).2.2)
  | Call.read => some ((w.read file).2, file)
  | Call.write => some (w, (w.write file).2)
  | Call.status => some ((w.status file).2, file)
  | Call.rendezvous fuel timeout => (w.rendezvous fuel file timeout).map (fun r => (r.2, file))
  | Call.select fuel key => (w.select hash fuel file key).map (fun r => (r.2, file))

/-- Effect of a sequence of calls made one after the other on the same handle, with nobody
else touching the file. -/
def Worker.run (hash : List Nat → Nat) (w : Worker) (file : File) :
    List Call → Option (Worker × File)
  | [] => some (w, file)
  | c :: rest =>
    match w.call hash file c with
    | none => none
    | some s => Worker.run hash s.1 s.2 rest

/-! ## A contended lock on a file of two records -/

/-- Worker 0 opened on a fresh file of two records. -/
def duo_open0 : Worker × Option File := Worker.ctor 0 (init_ipe true none 2).2 2

/-- Worker 1 opened next. -/
def duo_open1 : Worker × Option File := Worker.ctor 1 duo_open0.2 2

/-- Worker 0 calls `acquire_lock` (and gets `Success`). -/
def duo_lock0 : Errors × Worker × File := duo_open0.1.acquire_lock (duo_open1.2.getD [])

/-- Worker 1 calls `acquire_lock` while worker 0 holds the lock (and gets `Locked`). -/
def duo_lock1 : Errors × Worker × File := duo_open1.1.acquire_lock duo_lock0.2.2

/-! ## Interleaved runs of the lock protocol -/

/-- A process that calls `acquire_lock` and `unlock` on its handle. `acquiring` is set
while the process is inside `acquire_lock`, after its `write()` and before its `read()`.
`holds` records the history: the process got `Success` from an `acquire_lock` and has
not called `unlock` since. -/
structure Proc where
  w : Worker
  acquiring : Bool
  holds : Bool
  deriving DecidableEq, Repr

/-- The atomic steps of the processes: each contains exactly one file access, together
with the local computation around it. -/
inductive Action where
  | acquire_write
  | acquire_read
  | unlock
  deriving DecidableEq, Repr

/-- The shared file and the processes working on it. -/
structure Sys where
  file : File
  procs : List Proc
  deriving DecidableEq, Repr

/-- One atomic step of process `p`. A step that the process cannot take in its current
state (there is no such process, `acquire_read` outside `acquire_lock`, a new call while
inside `acquire_lock`) leaves the system as it is.
* `acquire_write`: entry of `acquire_lock` up to and including `write()` (ipe.cpp:184-195);
* `acquire_read`: `read()`, the count and the return of `acquire_lock` (ipe.cpp:196-208);
* `unlock`: a whole call of `unlock` (ipe.cpp:211-221), which accesses the file once. -/
def Sys.step (s : Sys) (p : Nat) (a : Action) : Sys :=
  match s.procs[p]? with
  | none => s
  | some pr =>
    match a, pr.acquiring with
    | Action.acquire_write, false =>
      if pr.w.is_monitor then
        { file := s.file, procs := s.procs.set p { w := pr.w, acquiring := false, holds := true } }
      else if !pr.w.handle then s
      else
        { file := (pr.w.acquire_lock_begin s.file).2,
          procs := s.procs.set p
            { w := (pr.w.acquire_lock_begin s.file).1, acquiring := true, holds := pr.holds } }
    | Action.acquire_read, true =>
      { file := s.file,
        procs := s.procs.set p
          { w := (pr.w.acquire_lock_end s.file).2, acquiring := false,
            holds := pr.holds || decide ((pr.w.acquire_lock_end s.file).1 = Errors.Success) } }
    | Action.unlock, false =>
      { file := (pr.w.unlock s.file).2.2,
        procs := s.procs.set p { w := (pr.w.unlock s.file).2.1, acquiring := false, holds := false } }
    | _, _ => s

/-- A schedule: which process takes which step, in order. -/
def Sys.run (s : Sys) : List (Nat × Action) → Sys
  | [] => s
  | pa :: rest => (s.step pa.1 pa.2).run rest

/-- Start of an interleaved run on a file of `N` records: all lock flags on file are 0,
every process is an open worker handle outside of any call, and no two processes have the
same worker index. -/
def Sys.initial (s : Sys) (N : Nat) : Prop :=
  s.file.length = N ∧ (∀ e ∈ s.file, e.lock = 0) ∧
  (∀ pr ∈ s.procs, pr.w.opened N ∧ pr.w.is_worker = true ∧ pr.acquiring = false ∧
    pr.holds = false) ∧
  (s.procs.map (fun pr => pr.w.worker_id)).Nodup

instance (s : Sys) (N : Nat) : Decidable (s.initial N) := by
  unfold Sys.initial; infer_instance

/-- Invariant of interleaved runs. -/
def Sys.inv (s : Sys) (N : Nat) : Prop :=
  s.file.length = N ∧
  (∀ (j : Nat) (e : Entry), s.file[j]? = some e → e.lock ≤ 1) ∧
  (∀ (p : Nat) (pr : Proc), s.procs[p]? = some pr →
    pr.w.opened N ∧ pr.w.is_worker = true ∧
    (pr.acquiring = true ∨ pr.holds = true →
      ∃ e : Entry, s.file[pr.w.worker_id.toNat]? = some e ∧ e.lock = 1)) ∧
  (∀ (p q : Nat) (pr qr : Proc), p ≠ q → s.procs[p]? = some pr → s.procs[q]? = some qr →
    pr.w.worker_id ≠ qr.w.worker_id) ∧
  (∀ (p q : Nat) (pr qr : Proc), p ≠ q → s.procs[p]? = some pr → s.procs[q]? = some qr →
    pr.holds = true → qr.holds = false)

/-- Three workers opened on a fresh file of three records, none of them inside a call. -/
def trio : Sys :=
  { file := (open_workers [0, 1, 2] (init_ipe true none 3).2 3).2.getD [],
    procs := (open_workers [0, 1, 2] (init_ipe true none 3).2 3).1.map
      (fun w => { w := w, acquiring := false, holds := false }) }

/-- A schedule for `trio`: 0 takes the lock, 1 enters `acquire_lock`, 2 tries and fails,
0 enters `acquire_lock` once more. -/
def trio_schedule : List (Nat × Action) :=
  [(0, Action.acquire_write), (0, Action.acquire_read), (1, Action.acquire_write),
   (2, Action.acquire_write), (2, Action.acquire_read), (0, Action.acquire_write)]

/-! ## Payloads set one after the other -/

/-- Worker 4 of main.cpp after `set_data("abcdef", 6)`. -/
def main_abcdef : Worker := main_publish.1.set_data [97, 98, 99, 100, 101, 102] 6

/-- The same handle after a further `set_data("xy", 2)`. -/
def main_xy : Worker := main_abcdef.set_data [120, 121] 2

/-! ## Linear probing, as the specification words it -/

/-- The first index that `select` probes: the hash of the key as ipe.cpp:248 and 255 reduce
it into `[0, N)` (truncation to `int`, conversion to `std::size_t`, remainder). -/
def first_probe (hash : List Nat → Nat) (key : List Nat) (N : Nat) : Nat :=
  toSizeT (toInt32 ((hash key % 18446744073709551616 : Nat) : Int)) % N

/-- Linear probing in the words of the specification: `(s + j) mod N` for the least
`j >= 0` such that slot `(s + j) mod N` of the snapshot is `Ready`, with `N` the number of
slots; `none` when no slot is `Ready`. -/
def cyclic_first_ready (data : List Entry) (s : Nat) : Option Nat :=
  ((List.range data.length).map (fun j => (s + j) % data.length)).find?
    (fun k => decide (data[k]?.map Entry.status = some Status.Ready))

/-- Workers 0 and 4 opened on a fresh file of six records: handles and file. -/
def six_open : List Worker × Option File := open_workers [0, 4] (init_ipe true none 6).2 6

/-- A hash function that sends every key to a value whose low 32 bits are all set, so
that its truncation to `int` is -1. -/
def hash_minus_one : List Nat → Nat := fun _ => 18446744073709551615

/-! ## Free-for-all initialisation over named files (ipe.cpp:54-126) -/

/-- Bytes of `IPE_LOCK_NAME`, the string `".ipe_lock"` (ipe.cpp:10). -/
def IPE_LOCK_NAME : List Nat := [46, 105, 112, 101, 95, 108, 111, 99, 107]

/-- State of the file system: `content name` is the content of the file called `name`
(`none` when there is no such file; a file that holds no record has content `[]`),
`writable name` tells whether `fopen(name, "w")` succeeds, and `rename_replaces` tells
whether `rename` onto an existing name replaces it (POSIX) or fails (what the comment at
ipe.cpp:51-53 counts on). -/
structure Fs where
  content : List Nat → Option File
  writable : List Nat → Bool
  rename_replaces : Bool

/-- The file system with the file `name` set to `c` (`none` removes it). -/
def Fs.set (fs : Fs) (name : List Nat) (c : Option File) : Fs :=
  { fs with content := fun x => if x = name then c else fs.content x }

/-- Model of `rename(old, new)`: `none` when it fails. -/
def Fs.rename (fs : Fs) (old new : List Nat) : Option Fs :=
  match fs.content old with
  | none => none
  | some c =>
    if (fs.content new).isSome && !fs.rename_replaces then none
    else some ((fs.set old none).set new (some c))

/-- The name that `sprintf(lock_name, "%s_%lu", IPE_LOCK_NAME, uid)` builds (ipe.cpp:58). -/
def tmp_lock_name (uid : Nat) : List Nat :=
  IPE_LOCK_NAME ++ [95] ++ (Nat.toDigits 10 (uid % 18446744073709551616)).map Char.toNat

/-- `is_master` (ipe.cpp:54). `uid` stands for `time(NULL) + rand()`. -/
def Fs.is_master (fs : Fs) (uid : Nat) : Errors × Fs :=
  if !fs.writable (tmp_lock_name uid) then (Errors.ReadOnlyFs, fs)
  else
    match (fs.set (tmp_lock_name uid) (some [])).rename (tmp_lock_name uid) IPE_LOCK_NAME with
    | none => (Errors.Locked, (fs.set (tmp_lock_name uid) (some [])).set (tmp_lock_name uid) none)
    | some fs2 => (Errors.Success, fs2)

/-- The loop of `wait_for_lock` (ipe.cpp:78-85, the `__linux__` branch), on a file system
that nobody else changes meanwhile. Each unit of fuel pays for one `access` check. -/
def Fs.wait_for_lock_loop : Nat → Fs → Int → Int → Option Errors
  | 0, _, _, _ => none
  | fuel + 1, fs, timeout, passed =>
    if (fs.content IPE_LOCK_NAME).isSome then
      if timeout > 0 ∧ toInt32 (passed + 1) > timeout then some Errors.TimedOut
      else Fs.wait_for_lock_loop fuel fs timeout (toInt32 (passed + 1))
    else some Errors.Success

/-- `wait_for_lock` (ipe.cpp:75). -/
def Fs.wait_for_lock (fuel : Nat) (fs : Fs) (timeout : Int) : Option Errors :=
  fs.wait_for_lock_loop fuel timeout 0

/-- `init_ipe` (ipe.cpp:97) on a named file. -/
def Fs.init_ipe (fs : Fs) (name : List Nat) (n_worker : Nat) : Errors × Fs :=
  ((ipe.init_ipe (fs.writable name) (fs.content name) n_worker).1,
    fs.set name (ipe.init_ipe (fs.writable name) (fs.content name) n_worker).2)

/-- `init_ffa` (ipe.cpp:111). `none` when the wait for the lock file does not end within
the fuel. -/
def Fs.init_ffa (fuel : Nat) (fs : Fs) (name : List Nat) (n_worker : Nat) (timeout : Int)
    (uid : Nat) : Option (Errors × Fs) :=
  if (fs.content name).isSome then some (Errors.Success, fs)
  else if (fs.is_master uid).1 = Errors.Locked then
    (Fs.wait_for_lock fuel (fs.is_master uid).2 timeout).map (fun e => (e, (fs.is_master uid).2))
  else some ((fs.is_master uid).2.init_ipe name n_worker)

/-- An empty, writable directory. -/
def fresh_fs : Fs :=
  { content := fun _ => none, writable := fun _ => true, rename_replaces := false }

/-- Bytes of the path `"status"` of main.cpp. -/
def status_path : List Nat := [115, 116, 97, 116, 117, 115]

/-! ## Several handles on one file -/

/-- The calls that start with a `read()` of the whole file and do not write:
`read`, `values`, `status`, `rendezvous`, `select`. -/
def Call.is_reader : Call → Bool
  | Call.read => true
  | Call.values => true
  | Call.status => true
  | Call.rendezvous _ _ => true
  | Call.select _ _ => true
  | _ => false

/-- The calls that may `write()` the own record to the file: `write`, `acquire_lock`,
`unlock`. -/
def Call.persists : Call → Bool
  | Call.write => true
  | Call.acquire_lock => true
  | Call.unlock => true
  | _ => false

/-- A public operation on the coordination file: a handle is constructed, a live handle
makes a call, a live handle is destroyed. Handles are numbered in the order of their
construction. -/
inductive Event where
  | construct (wid : Int)
  | call (h : Nat) (c : Call)
  | destroy (h : Nat)
  deriving DecidableEq, Repr

/-- The file and the handles built so far (`none` for a destroyed handle). -/
structure World where
  file : File
  handles : List (Option Worker)
  deriving DecidableEq, Repr

/-- Effect of one operation, run without interference; every handle is built for `N`
workers. An operation on a handle that does not exist or was destroyed does nothing;
`none` when a call does not return within its fuel. -/
def World.step (hash : List Nat → Nat) (N : Nat) (s : World) : Event → Option World
  | Event.construct wid =>
    some { file := (Worker.ctor wid (some s.file) N).2.getD s.file,
           handles := s.handles ++ [some (Worker.ctor wid (some s.file) N).1] }
  | Event.call h c =>
    match s.handles[h]? with
    | some (some w) =>
      (w.call hash s.file c).map
        (fun r => { file := r.2, handles := s.handles.set h (some r.1) })
    | _ => some s
  | Event.destroy h =>
    match s.handles[h]? with
    | some (some w) => some { file := w.dtor s.file, handles := s.handles.set h none }
    | _ => some s

/-- Effect of a sequence of operations. -/
def World.run (hash : List Nat → Nat) (N : Nat) : World → List Event → Option World
  | s, [] => some s
  | s, ev :: rest =>
    match s.step hash N ev with
    | none => none
    | some s2 => World.run hash N s2 rest

/-- The file has `N` records and every live handle is an open handle for `N` workers. -/
def World.wf (s : World) (N : Nat) : Prop :=
  s.file.length = N ∧ ∀ h ∈ s.handles, ∀ w ∈ h, w.opened N

instance (s : World) (N : Nat) : Decidable (s.wf N) := by
  unfold World.wf; infer_instance

/-- An operation that cannot put the in-memory record of a handle into file slot `slot`:
the construction of a handle with another index, a call by a handle with another index, a
call that does not write, or a destruction. -/
def Event.spares (s : World) (slot : Nat) : Event → Bool
  | Event.construct wid => decide (wid ≠ (slot : Int))
  | Event.call h c =>
    match s.handles[h]? with
    | some (some w) => decide (w.worker_id ≠ (slot : Int)) || !c.persists
    | _ => true
  | Event.destroy _ => true

/-- Every operation of the sequence spares `slot` in the state in which it is made (the
check stops at a call that does not return). -/
def World.spared (hash : List Nat → Nat) (N : Nat) (slot : Nat) : World → List Event → Bool
  | _, [] => true
  | s, ev :: rest =>
    ev.spares s slot &&
      (match s.step hash N ev with
       | none => true
       | some s2 => World.spared hash N slot s2 rest)

/-- A call of `acquire_lock` or `unlock`. -/
def Event.is_lock_call : Event → Bool
  | Event.call _ Call.acquire_lock => true
  | Event.call _ Call.unlock => true
  | _ => false

/-- The state of C19: file slots `a` and `b` carry lock flag 1, no flag on file exceeds 1,
and every live handle is an open worker handle whose in-memory flag for its own slot
is 0. -/
def World.stale (s : World) (N a b : Nat) : Prop :=
  s.wf N ∧ a ≠ b ∧
  s.file[a]?.map Entry.lock = some 1 ∧ s.file[b]?.map Entry.lock = some 1 ∧
  (∀ e ∈ s.file, e.lock ≤ 1) ∧
  ∀ h ∈ s.handles, ∀ w ∈ h, w.is_worker = true ∧ w.worker.lock = 0

instance (s : World) (N a b : Nat) : Decidable (s.stale N a b) := by
  unfold World.stale; infer_instance

/-- The world of main.cpp right after `init_ipe("status", 5)`: no handle yet. -/
def main_world : World := { file := main_init.getD [], handles := [] }

/-- Three workers on a fresh file of three records: worker 0 takes the lock, worker 1 tries
and gets `Locked`, worker 0 unlocks, worker 2 tries and gets `Locked`. File slots 1 and 2
are left with lock flag 1, every in-memory flag is 0. -/
def stale_world : World :=
  (World.run (fun _ => 0) 3 { file := List.replicate 3 Entry.zero, handles := [] }
    [Event.construct 0, Event.construct 1, Event.construct 2,
     Event.call 0 Call.acquire_lock, Event.call 1 Call.acquire_lock,
     Event.call 0 Call.unlock, Event.call 2 Call.acquire_lock]).getD
    { file := [], handles := [] }

/-! ## Machine integers: lemmas -/

theorem toInt32_eq_self (x : Int) (h0 : -2147483648 ≤ x) (h1 : x < 2147483648) :
    toInt32 x = x := by
  unfold toInt32; omega

theorem toSizeT_natCast (n : Nat) (h : n < 18446744073709551616) : toSizeT (n : Int) = n := by
  unfold toSizeT; omega

/-- A wrapping `int` accumulation of non-negative terms equals the exact sum as long as the
exact sum fits in an `int`. -/
theorem foldl_wrap_eq_sum (g : Entry → Int) (hg : ∀ e, 0 ≤ g e) (l : List Entry) :
    ∀ acc : Int, 0 ≤ acc → acc + (l.map g).sum < 2147483648 →
      l.foldl (fun c e => toInt32 (c + g e)) acc = acc + (l.map g).sum := by
  induction l with
  | nil => intro acc _ _; simp
  | cons e t ih =>
    intro acc h0 h1
    simp only [List.map_cons, List.sum_cons, List.foldl_cons] at h1 ⊢
    have hge := hg e
    have hsum : 0 ≤ (t.map g).sum := List.sum_nonneg (by
      intro x hx
      obtain ⟨e', _, rfl⟩ := List.mem_map.mp hx
      exact hg e')
    rw [toInt32_eq_self (acc + g e) (by omega) (by omega)]
    rw [ih (acc + g e) (by omega) (by omega)]
    omega

theorem sum_indicator_eq_countP (p : Entry → Bool) (l : List Entry) :
    (l.map (fun e => if p e then (1 : Int) else 0)).sum = (l.countP p : Int) := by
  induction l with
  | nil => simp
  | cons e t ih =>
    simp only [List.map_cons, List.sum_cons, List.countP_cons, ih]
    by_cases h : p e <;> simp [h]; omega

theorem count_status_eq (s : Status) (data : List Entry) (h : data.length < 2147483648) :
    count_status s data = (data.countP (fun e => decide (e.status = s)) : Int) := by
  have hle : data.countP (fun e => decide (e.status = s)) ≤ data.length := List.countP_le_length _
  have hs := sum_indicator_eq_countP (fun e => decide (e.status = s)) data
  simp only [decide_eq_true_eq] at hs
  unfold count_status
  rw [foldl_wrap_eq_sum (fun e => if e.status = s then (1 : Int) else 0)
    (by intro e; dsimp only; split <;> omega) data 0 (by omega) (by rw [hs]; omega)]
  rw [hs]; simp

/-! ## Reading and counting -/

theorem fread_full (file data : List Entry) (N : Nat) (hf : file.length = N)
    (hd : data.length = N) : fread file N data = file := by
  unfold fread
  have h1 : file.take N = file := by rw [← hf]; exact List.take_length _
  rw [h1, hf, ← hd, List.drop_length, List.append_nil]

theorem read_opened (w : Worker) (file : File) (N : Nat) (hw : w.opened N)
    (hf : file.length = N) : w.read file = (Errors.Success, { w with data := file }) := by
  obtain ⟨h1, h2, h3⟩ := hw
  unfold Worker.read
  simp [h1, h2, fread_full file w.data N hf h3]

theorem opened_read (w : Worker) (file : File) (N : Nat) (hw : w.opened N)
    (hf : file.length = N) : Worker.opened { w with data := file } N := by
  obtain ⟨h1, h2, _⟩ := hw
  exact ⟨h1, h2, hf⟩

theorem status_count_le (s : Status) (data : List Entry) : status_count s data ≤ data.length :=
  List.countP_le_length _

theorem count_status_eq_status_count (s : Status) (data : List Entry)
    (h : data.length < 2147483648) : count_status s data = (status_count s data : Int) :=
  count_status_eq s data h

/-- The two counters of the barrier never exceed the number of slots together, and they
reach it exactly when no slot is `None`. -/
theorem ready_add_stopped (data : List Entry) :
    status_count Status.Ready data + status_count Status.Stopped data ≤ data.length ∧
    (status_count Status.Ready data + status_count Status.Stopped data = data.length ↔
      ∀ e ∈ data, e.status ≠ Status.None) := by
  unfold status_count
  induction data with
  | nil => simp
  | cons e t ih =>
    obtain ⟨ih1, ih2⟩ := ih
    have hr := List.countP_le_length (fun e : Entry => decide (e.status = Status.Ready)) (l := t)
    simp only [List.countP_cons, List.length_cons, List.mem_cons, forall_eq_or_imp,
      decide_eq_true_eq]
    cases hs : e.status <;> simp <;> constructor <;> try omega
    all_goals (rw [← ih2]; omega)

/-! ## The barrier loop, one iteration at a time -/

/-- One iteration of the barrier loop on an open handle, with the `int` counters resolved. -/
theorem rendezvous_loop_succ (fuel : Nat) (w : Worker) (file : File) (N : Nat)
    (timeout passed ready : Int) (hN : N < 2147483648) (hw : w.opened N)
    (hf : file.length = N) :
    w.rendezvous_loop (fuel + 1) file timeout passed ready =
      if timeout > 0 ∧ (if ready ≠ 0 then toInt32 (passed + 1) else passed) > timeout then
        some ((status_count Status.Ready file : Int), { w with data := file })
      else if status_count Status.Ready file + status_count Status.Stopped file ≠ N then
        Worker.rendezvous_loop fuel { w with data := file } file timeout
          (if ready ≠ 0 then toInt32 (passed + 1) else passed)
          (status_count Status.Ready file : Int)
      else some ((status_count Status.Ready file : Int), { w with data := file }) := by
  have hle := (ready_add_stopped file).1
  rw [Worker.rendezvous_loop]
  simp only [read_opened w file N hw hf]
  rw [count_status_eq_status_count _ _ (by omega), count_status_eq_status_count _ _ (by omega)]
  have hcast : ((status_count Status.Ready file : Int) + (status_count Status.Stopped file : Int))
      = ((status_count Status.Ready file + status_count Status.Stopped file : Nat) : Int) := by
    push_cast; rfl
  rw [hcast, toInt32_eq_self ((status_count Status.Ready file +
    status_count Status.Stopped file : Nat) : Int) (by omega) (by omega),
    toSizeT_natCast _ (by omega)]
  simp only [hw.2.1]

theorem is_worker_iff (w : Worker) :
    w.is_worker = true ↔ 0 ≤ w.worker_id ∧ w.worker_id.toNat < w.data.length := by
  unfold Worker.is_worker; simp

theorem is_monitor_eq_false (w : Worker) (h : w.is_worker = true) : w.is_monitor = false := by
  unfold Worker.is_monitor; simp [h]

theorem is_monitor_eq_true (w : Worker) (h : w.is_worker = false) : w.is_monitor = true := by
  unfold Worker.is_monitor; simp [h]

theorem worker_of_worker (w : Worker) (h : w.is_worker = true) :
    w.worker = w.data.getD w.worker_id.toNat Entry.zero := by
  unfold Worker.worker; simp [is_monitor_eq_false w h]

theorem modify_worker_of_worker (w : Worker) (f : Entry → Entry) (h : w.is_worker = true) :
    w.modify_worker f = { w with data := w.data.set w.worker_id.toNat (f w.worker) } := by
  unfold Worker.modify_worker; simp [is_monitor_eq_false w h]

theorem modify_worker_of_monitor (w : Worker) (f : Entry → Entry) (h : w.is_worker = false) :
    w.modify_worker f = { w with static_e := f w.static_e } := by
  unfold Worker.modify_worker; simp [is_monitor_eq_true w h]

theorem is_worker_modify (w : Worker) (f : Entry → Entry) :
    (w.modify_worker f).is_worker = w.is_worker := by
  unfold Worker.modify_worker
  split <;> simp [Worker.is_worker]

theorem worker_modify (w : Worker) (f : Entry → Entry) (h : w.is_worker = true) :
    (w.modify_worker f).worker = f w.worker := by
  have h2 : (w.modify_worker f).is_worker = true := by rw [is_worker_modify]; exact h
  rw [worker_of_worker _ h2, modify_worker_of_worker w f h]
  have hlt := ((is_worker_iff w).mp h).2
  simp [List.getD_eq_getElem?_getD, List.getElem?_set, hlt]

theorem modify_worker_handle (w : Worker) (f : Entry → Entry) :
    (w.modify_worker f).handle = w.handle := by
  unfold Worker.modify_worker; split <;> rfl

theorem modify_worker_n_worker (w : Worker) (f : Entry → Entry) :
    (w.modify_worker f).n_worker = w.n_worker := by
  unfold Worker.modify_worker; split <;> rfl

theorem modify_worker_worker_id (w : Worker) (f : Entry → Entry) :
    (w.modify_worker f).worker_id = w.worker_id := by
  unfold Worker.modify_worker; split <;> rfl

theorem modify_worker_length (w : Worker) (f : Entry → Entry) :
    (w.modify_worker f).data.length = w.data.length := by
  unfold Worker.modify_worker; split <;> simp

theorem opened_modify (w : Worker) (f : Entry → Entry) (N : Nat) (h : w.opened N) :
    (w.modify_worker f).opened N := by
  obtain ⟨h1, h2, h3⟩ := h
  exact ⟨by rw [modify_worker_handle]; exact h1, by rw [modify_worker_n_worker]; exact h2,
    by rw [modify_worker_length]; exact h3⟩

theorem fwrite_at_in_range (file : File) (pos : Nat) (e : Entry) (h : pos < file.length) :
    fwrite_at file pos e = file.set pos e := by
  unfold fwrite_at; simp [h]

theorem write_of_worker (w : Worker) (file : File) (h : w.is_worker = true)
    (hh : w.handle = true) :
    w.write file = (Errors.Success, fwrite_at file w.worker_id.toNat w.worker) := by
  unfold Worker.write; simp [is_monitor_eq_false w h, hh]

theorem write_of_monitor (w : Worker) (file : File) (h : w.is_worker = false) :
    w.write file = (Errors.Success, file) := by
  unfold Worker.write; simp [is_monitor_eq_true w h]

/-! ## Construction -/

/-- What the constructor does on an existing file of `N` records. -/
theorem ctor_spec (wid : Int) (file : File) (N : Nat) (hf : file.length = N) :
    (Worker.ctor wid (some file) N).1.opened N ∧
    ((0 ≤ wid ∧ wid.toNat < N) →
      (Worker.ctor wid (some file) N).2 =
        some (file.set wid.toNat { Entry.zero with status := Status.Ready }) ∧
      (Worker.ctor wid (some file) N).1.is_worker = true ∧
      (Worker.ctor wid (some file) N).1.worker_id = wid) ∧
    (¬ (0 ≤ wid ∧ wid.toNat < N) →
      (Worker.ctor wid (some file) N).2 = some file ∧
      (Worker.ctor wid (some file) N).1.is_worker = false) := by
  have hop : Worker.opened (Worker.mk wid N true (List.replicate N Entry.zero) Entry.zero) N :=
    ⟨rfl, rfl, by simp⟩
  by_cases hw : 0 ≤ wid ∧ wid.toNat < N
  · have hisw : Worker.is_worker (Worker.mk wid N true (List.replicate N Entry.zero) Entry.zero) = true := by
      rw [is_worker_iff]; simpa using hw
    have hctor : Worker.ctor wid (some file) N =
        ((Worker.mk wid N true (List.replicate N Entry.zero) Entry.zero).modify_worker
            (fun e => { e with status := Status.Ready }),
          some (file.set wid.toNat { Entry.zero with status := Status.Ready })) := by
      unfold Worker.ctor
      simp only [Option.isSome_some, hisw, if_true]
      rw [write_of_worker _ _ (by rw [is_worker_modify]; exact hisw)
        (by rw [modify_worker_handle])]
      rw [worker_modify _ _ hisw, worker_of_worker _ hisw]
      rw [fwrite_at_in_range _ _ _ (by rw [modify_worker_worker_id]; show wid.toNat < file.length; omega)]
      simp [modify_worker_worker_id, List.getD_eq_getElem?_getD, hw.2]
    rw [hctor]
    refine ⟨opened_modify _ _ N hop, fun _ => ⟨rfl, ?_, ?_⟩, fun h => absurd hw h⟩
    · rw [is_worker_modify]; exact hisw
    · rw [modify_worker_worker_id]
  · have hisw : Worker.is_worker (Worker.mk wid N true (List.replicate N Entry.zero) Entry.zero) = false := by
      rw [Bool.eq_false_iff]; intro h; rw [is_worker_iff] at h; simp at h; exact hw h
    have hctor : Worker.ctor wid (some file) N =
        (Worker.mk wid N true (List.replicate N Entry.zero) Entry.zero, some file) := by
      unfold Worker.ctor
      simp [hisw]
    rw [hctor]
    exact ⟨hop, fun h => absurd h hw, fun _ => ⟨rfl, hisw⟩⟩

/-- Opening a list of handles keeps the file at `N` records, gives open handles, makes
every slot whose index was opened `Ready`, and keeps a `Ready` slot `Ready`. -/
theorem open_workers_spec (N : Nat) (ids : List Int) :
    ∀ file : File, file.length = N →
      ∃ file2 : File, (open_workers ids (some file) N).2 = some file2 ∧ file2.length = N ∧
        (∀ w ∈ (open_workers ids (some file) N).1, w.opened N) ∧
        (∀ i : Nat, i < N → ((i : Int) ∈ ids ∨ (file[i]?.map Entry.status = some Status.Ready)) →
          file2[i]?.map Entry.status = some Status.Ready) := by
  induction ids with
  | nil =>
    intro file hf
    refine ⟨file, rfl, hf, by simp [open_workers], ?_⟩
    intro i _ h
    simpa using h
  | cons wid rest ih =>
    intro file hf
    obtain ⟨hop, hwk, hmon⟩ := ctor_spec wid file N hf
    by_cases hw : 0 ≤ wid ∧ wid.toNat < N
    · obtain ⟨h2, _, _⟩ := hwk hw
      obtain ⟨file2, e2, l2, o2, s2⟩ :=
        ih (file.set wid.toNat { Entry.zero with status := Status.Ready }) (by simp [hf])
      refine ⟨file2, ?_, l2, ?_, ?_⟩
      · simp only [open_workers, h2]; exact e2
      · intro w hwm
        simp only [open_workers, List.mem_cons, h2] at hwm
        rcases hwm with rfl | hwm
        · exact hop
        · exact o2 w hwm
      · intro i hi h
        apply s2 i hi
        by_cases hiw : wid.toNat = i
        · right; subst hiw; simp [List.getElem?_set, hf, hi]
        · rcases h with h | h
          · simp only [List.mem_cons] at h
            rcases h with h | h
            · exfalso; apply hiw; rw [← h]; simp
            · left; exact h
          · right; rw [List.getElem?_set_ne hiw]; exact h
    · obtain ⟨h2, _⟩ := hmon hw
      obtain ⟨file2, e2, l2, o2, s2⟩ := ih file hf
      refine ⟨file2, ?_, l2, ?_, ?_⟩
      · simp only [open_workers, h2]; exact e2
      · intro w hwm
        simp only [open_workers, List.mem_cons, h2] at hwm
        rcases hwm with rfl | hwm
        · exact hop
        · exact o2 w hwm
      · intro i hi h
        apply s2 i hi
        rcases h with h | h
        · simp only [List.mem_cons] at h
          rcases h with h | h
          · exfalso; apply hw; rw [← h]; simp; exact hi
          · left; exact h
        · right; exact h

theorem status_count_all (s : Status) (data : List Entry) (h : ∀ e ∈ data, e.status = s) :
    status_count s data = data.length := by
  unfold status_count
  rw [List.countP_eq_length]
  intro e he; simpa using h e he

theorem status_count_none (s : Status) (data : List Entry) (h : ∀ e ∈ data, e.status ≠ s) :
    status_count s data = 0 := by
  unfold status_count
  rw [List.countP_eq_zero]
  intro e he; simpa using h e he

/-! ## The barrier -/

/-- C1: after `init_ipe(path, N)` and the construction of worker handles for a list of
indices that contains every index `0..N-1` (in any order, none destroyed),
`rendezvous(-1)` on any of these handles returns after one read, with result `N`.
`N < 2^31` is the range in which the `int` result can represent `N`. -/
theorem C1_rendezvous_all_workers (N : Nat) (hN : N < 2147483648) (disk : Option File)
    (ids : List Int) (hids : ∀ i : Nat, i < N → (i : Int) ∈ ids) :
    ∃ file : File,
      (open_workers ids (init_ipe true disk N).2 N).2 = some file ∧
      ∀ w ∈ (open_workers ids (init_ipe true disk N).2 N).1, ∀ fuel : Nat,
        (w.rendezvous (fuel + 1) file (-1)).map Prod.fst = some (N : Int) := by
  have hinit : (init_ipe true disk N).2 = some (List.replicate N Entry.zero) := by
    simp [init_ipe]
  rw [hinit]
  obtain ⟨file, e, hl, ho, hs⟩ := open_workers_spec N ids (List.replicate N Entry.zero) (by simp)
  refine ⟨file, e, ?_⟩
  intro w hw fuel
  have hall : ∀ en ∈ file, en.status = Status.Ready := by
    intro en hen
    obtain ⟨i, hi, rfl⟩ := List.getElem_of_mem hen
    have := hs i (by omega) (Or.inl (hids i (by omega)))
    simpa [List.getElem?_eq_getElem hi] using this
  have hr : status_count Status.Ready file = N := by rw [status_count_all _ _ hall, hl]
  have hst : status_count Status.Stopped file = 0 :=
    status_count_none _ _ (by intro en hen; rw [hall en hen]; decide)
  unfold Worker.rendezvous
  rw [(ho w hw).1]
  simp only [Bool.not_true, Bool.false_eq_true, if_false]
  rw [rendezvous_loop_succ fuel w file N (-1) 0 0 hN (ho w hw) hl]
  simp [hr, hst]

/-- Witness of C1: N = 5, workers 0..4 opened, `rendezvous(-1)` on worker 4 gives 5. -/
theorem C1_rendezvous_all_workers_witness :
    (5 < 2147483648) ∧ (∀ i : Nat, i < 5 → (i : Int) ∈ [(0 : Int), 1, 2, 3, 4]) ∧
    (∃ file : File,
      (open_workers [0, 1, 2, 3, 4] (init_ipe true none 5).2 5).2 = some file ∧
      ∀ w ∈ (open_workers [0, 1, 2, 3, 4] (init_ipe true none 5).2 5).1, ∀ fuel : Nat,
        (w.rendezvous (fuel + 1) file (-1)).map Prod.fst = some ((5 : Nat) : Int)) :=
  ⟨by decide, by decide,
    C1_rendezvous_all_workers 5 (by decide) none [0, 1, 2, 3, 4] (by decide)⟩

/-- C9 (code defect): the timeout counter `passed` only advances when the previous
iteration counted at least one `Ready` slot. On an open handle, when no slot of the
file is `Ready` and not all slots are `Stopped`, `rendezvous(timeout)` never returns,
whatever the timeout: no amount of fuel yields a result. -/
theorem C9_rendezvous_spins_without_ready (w : Worker) (file : File) (N : Nat) (timeout : Int)
    (hN : N < 2147483648) (hw : w.opened N) (hf : file.length = N)
    (hready : status_count Status.Ready file = 0)
    (hstopped : status_count Status.Stopped file ≠ N) :
    ∀ fuel : Nat, w.rendezvous fuel file timeout = none := by
  have hloop : ∀ (fuel : Nat) (w : Worker), w.opened N →
      w.rendezvous_loop fuel file timeout 0 0 = none := by
    intro fuel
    induction fuel with
    | zero => intro w _; simp [Worker.rendezvous_loop]
    | succ n ih =>
      intro w hw
      rw [rendezvous_loop_succ n w file N timeout 0 0 hN hw hf]
      have hnt : ¬ (timeout > 0 ∧ (if (0 : Int) ≠ 0 then toInt32 (0 + 1) else 0) > timeout) := by
        simp only [ne_eq, not_true_eq_false, if_false]; omega
      rw [if_neg hnt, if_pos (by omega), hready]
      simpa using ih _ (opened_read w file N hw hf)
  intro fuel
  unfold Worker.rendezvous
  rw [hw.1]
  simp only [Bool.not_true, Bool.false_eq_true, if_false]
  exact hloop fuel w hw

/-- Failing input of C9: `init_ipe("status", 5)`, a monitor handle, `rendezvous(1)`. -/
theorem C9_rendezvous_spins_without_ready_witness :
    (5 < 2147483648) ∧ (Worker.ctor (-1) main_init 5).1.opened 5 ∧
    (main_init.getD []).length = 5 ∧
    status_count Status.Ready (main_init.getD []) = 0 ∧
    status_count Status.Stopped (main_init.getD []) ≠ 5 ∧
    ∀ fuel : Nat, (Worker.ctor (-1) main_init 5).1.rendezvous fuel (main_init.getD []) 1 = none :=
  ⟨by decide, by decide, by decide, by decide, by decide,
    C9_rendezvous_spins_without_ready (Worker.ctor (-1) main_init 5).1 (main_init.getD []) 5 1
      (by decide) (by decide) (by decide) (by decide) (by decide)⟩

/-! ## `write`, the destructor and `values` -/

/-- C5: frame of `write()`. On an open worker handle `write()` returns `Success`, the call
leaves the handle as it was, file slot `w` becomes the in-memory record `data[w]`, the
file keeps its `N` records and every other slot is unchanged; on a monitor handle
`write()` returns `Success` and the file is unchanged. -/
theorem C5_write_frame (hash : List Nat → Nat) (w : Worker) (file : File) (N : Nat)
    (hw : w.opened N) (hf : file.length = N) :
    (w.is_worker = true →
      (w.write file).1 = Errors.Success ∧
      w.call hash file Call.write = some (w, (w.write file).2) ∧
      (w.write file).2.length = N ∧
      (w.write file).2[w.worker_id.toNat]? = w.data[w.worker_id.toNat]? ∧
      ∀ i : Nat, i ≠ w.worker_id.toNat → (w.write file).2[i]? = file[i]?) ∧
    (w.is_worker = false →
      w.write file = (Errors.Success, file) ∧ w.call hash file Call.write = some (w, file)) := by
  constructor
  · intro hisw
    have hlt := ((is_worker_iff w).mp hisw).2
    rw [hw.2.2] at hlt
    rw [write_of_worker w file hisw hw.1, fwrite_at_in_range _ _ _ (by omega),
      worker_of_worker w hisw]
    refine ⟨rfl, ?_, by simp [hf], ?_, ?_⟩
    · simp [Worker.call, write_of_worker w file hisw hw.1, fwrite_at_in_range _ _ _
        (show w.worker_id.toNat < file.length by omega), worker_of_worker w hisw]
    · have hd : w.worker_id.toNat < w.data.length := by rw [hw.2.2]; exact hlt
      simp [List.getElem?_set, hf, hlt, List.getD_eq_getElem?_getD, hd]
    · intro i hi
      rw [List.getElem?_set_ne (Ne.symm hi)]
  · intro hmon
    rw [Worker.call, write_of_monitor w file hmon]
    exact ⟨rfl, rfl⟩

/-- Witness of C5: worker 4 of main.cpp after `set_name`, `set_time`. -/
theorem C5_write_frame_witness :
    main_publish.1.opened 5 ∧ (main_open.2.getD []).length = 5 ∧
    main_publish.1.is_worker = true ∧
    (main_publish.1.write (main_open.2.getD [])).2[4]? = main_publish.1.data[4]? :=
  ⟨by decide, by decide, by decide,
    ((C5_write_frame (fun _ => 0) main_publish.1 (main_open.2.getD []) 5 (by decide)
      (by decide)).1 (by decide)).2.2.2.1⟩

theorem write_set (w : Worker) (file : File) (N : Nat) (hw : w.opened N)
    (hisw : w.is_worker = true) (hf : file.length = N) :
    (w.write file).2 = file.set w.worker_id.toNat w.worker := by
  have hlt := ((is_worker_iff w).mp hisw).2
  rw [hw.2.2] at hlt
  rw [write_of_worker w file hisw hw.1, fwrite_at_in_range _ _ _ (by omega)]

theorem is_worker_modify_true (w : Worker) (f : Entry → Entry) (h : w.is_worker = true) :
    (w.modify_worker f).is_worker = true := by
  rw [is_worker_modify]; exact h

/-- File content after the destructor of a worker handle. -/
theorem dtor_of_worker (w : Worker) (file : File) (N : Nat) (hw : w.opened N)
    (hisw : w.is_worker = true) (hf : file.length = N) :
    w.dtor file =
      file.set w.worker_id.toNat { w.worker with lock := 0, status := Status.Stopped } := by
  unfold Worker.dtor
  rw [if_pos hisw]
  unfold Worker.unlock
  rw [is_monitor_eq_false w hisw]
  simp only [Bool.false_eq_true, if_false]
  by_cases hl : w.worker.lock > 0
  · rw [if_pos hl]
    simp only
    have h1 := is_worker_modify_true w (fun e => { e with lock := 0 }) hisw
    have o1 := opened_modify w (fun e => { e with lock := 0 }) N hw
    have h2 := is_worker_modify_true _ (fun e => { e with status := Status.Stopped }) h1
    have o2 := opened_modify _ (fun e => { e with status := Status.Stopped }) N o1
    rw [write_set _ _ N o1 h1 hf, write_set _ _ N o2 h2 (by simp [hf])]
    rw [worker_modify _ _ h1, worker_modify _ _ hisw]
    simp [modify_worker_worker_id]
  · rw [if_neg hl]
    simp only
    have h2 := is_worker_modify_true w (fun e => { e with status := Status.Stopped }) hisw
    have o2 := opened_modify w (fun e => { e with status := Status.Stopped }) N hw
    rw [write_set _ _ N o2 h2 hf, worker_modify _ _ hisw]
    have hz : w.worker.lock = 0 := by omega
    rw [modify_worker_worker_id]
    congr 1
    cases hwk : w.worker
    rw [hwk] at hz
    simp at hz
    simp [hz]

/-- C8: destroying an open worker handle with index `w` leaves file slot `w` with status
`Stopped` and lock flag 0, whatever the handle's memory and the file held before, and
leaves every other file slot unchanged; destroying a monitor handle leaves the file
unchanged. -/
theorem C8_destructor (w : Worker) (file : File) (N : Nat) (hw : w.opened N)
    (hf : file.length = N) :
    (w.is_worker = true →
      (∃ e : Entry, (w.dtor file)[w.worker_id.toNat]? = some e ∧
        e.status = Status.Stopped ∧ e.lock = 0) ∧
      (w.dtor file).length = N ∧
      ∀ i : Nat, i ≠ w.worker_id.toNat → (w.dtor file)[i]? = file[i]?) ∧
    (w.is_worker = false → w.dtor file = file) := by
  constructor
  · intro hisw
    have hlt := ((is_worker_iff w).mp hisw).2
    rw [hw.2.2] at hlt
    rw [dtor_of_worker w file N hw hisw hf]
    refine ⟨⟨{ w.worker with lock := 0, status := Status.Stopped }, ?_, rfl, rfl⟩, ?_, ?_⟩
    · simp [List.getElem?_set, hf, hlt]
    · simp [hf]
    · intro i hi
      rw [List.getElem?_set_ne (Ne.symm hi)]
  · intro hmon
    unfold Worker.dtor
    simp [hmon]

/-- Witness of C8: worker 1 of the two-record scenario is destroyed after its failed
`acquire_lock`, which left lock flag 1 in file slot 1. -/
theorem C8_destructor_witness :
    duo_lock1.2.1.opened 2 ∧ duo_lock1.2.2.length = 2 ∧ duo_lock1.2.1.is_worker = true ∧
    duo_lock1.1 = Errors.Locked ∧ duo_lock1.2.2[1]?.map Entry.lock = some 1 ∧
    (∃ e : Entry, (duo_lock1.2.1.dtor duo_lock1.2.2)[duo_lock1.2.1.worker_id.toNat]? = some e ∧
        e.status = Status.Stopped ∧ e.lock = 0) :=
  ⟨by decide, by decide, by decide, by decide, by decide,
    ((C8_destructor duo_lock1.2.1 duo_lock1.2.2 2 (by decide) (by decide)).1 (by decide)).1⟩

theorem lock_sum_cons (e : Entry) (t : List Entry) : lock_sum (e :: t) = e.lock + lock_sum t := by
  simp [lock_sum]

theorem lock_sum_nil : lock_sum [] = 0 := rfl

theorem lock_le_lock_sum (l : List Entry) :
    ∀ (i : Nat) (e : Entry), l[i]? = some e → e.lock ≤ lock_sum l := by
  induction l with
  | nil => intro i e h; simp at h
  | cons a t ih =>
    intro i e h
    rw [lock_sum_cons]
    cases i with
    | zero => simp at h; subst h; omega
    | succ n =>
      simp at h
      have := ih n e h
      omega

theorem lock_sum_eq_zero_iff (l : List Entry) :
    lock_sum l = 0 ↔ ∀ (j : Nat) (e : Entry), l[j]? = some e → e.lock = 0 := by
  constructor
  · intro h j e he
    have := lock_le_lock_sum l j e he
    omega
  · induction l with
    | nil => intro _; rfl
    | cons a t ih =>
      intro h
      rw [lock_sum_cons]
      have h0 := h 0 a (by simp)
      have ht := ih (fun j e he => h (j + 1) e (by simpa using he))
      omega

/-- With the own flag at 1, the total is at most 1 exactly when every other flag is 0. -/
theorem lock_sum_le_one_iff (l : List Entry) :
    ∀ (i : Nat) (e : Entry), l[i]? = some e → e.lock = 1 →
      (lock_sum l ≤ 1 ↔ ∀ (j : Nat) (e2 : Entry), j ≠ i → l[j]? = some e2 → e2.lock = 0) := by
  induction l with
  | nil => intro i e h; simp at h
  | cons a t ih =>
    intro i e h h1
    rw [lock_sum_cons]
    cases i with
    | zero =>
      simp at h; subst h
      rw [h1]
      constructor
      · intro hs j e2 hj he2
        cases j with
        | zero => exact absurd rfl hj
        | succ n =>
          simp at he2
          exact (lock_sum_eq_zero_iff t).mp (by omega) n e2 he2
      · intro hall
        have : lock_sum t = 0 :=
          (lock_sum_eq_zero_iff t).mpr (fun j e2 he2 => hall (j + 1) e2 (by omega) (by simpa using he2))
        omega
    | succ n =>
      simp at h
      have hge := lock_le_lock_sum t n e h
      have hih := ih n e h h1
      constructor
      · intro hs j e2 hj he2
        cases j with
        | zero => simp at he2; subst he2; omega
        | succ m =>
          simp at he2
          exact hih.mp (by omega) m e2 (by omega) he2
      · intro hall
        have ha : a.lock = 0 := hall 0 a (by omega) (by simp)
        have := hih.mpr (fun j e2 hj he2 => hall (j + 1) e2 (by omega) (by simpa using he2))
        omega

theorem lock_sum_set_le (l : List Entry) :
    ∀ (i : Nat) (e : Entry), lock_sum (l.set i e) ≤ lock_sum l + e.lock := by
  induction l with
  | nil => intro i e; simp [lock_sum]
  | cons a t ih =>
    intro i e
    cases i with
    | zero => simp only [List.set_cons_zero, lock_sum_cons]; omega
    | succ n =>
      simp only [List.set_cons_succ, lock_sum_cons]
      have := ih n e
      omega

theorem count_locks_eq_lock_sum (data : List Entry) (h : lock_sum data < 2147483648) :
    count_locks data = (lock_sum data : Int) := by
  have hs : ∀ l : List Entry, (l.map (fun e => (e.lock : Int))).sum = (lock_sum l : Int) := by
    intro l
    unfold lock_sum
    induction l with
    | nil => simp
    | cons e t ih => simp only [List.map_cons, List.sum_cons, ih]; push_cast; rfl
  have hs := hs data
  unfold count_locks
  rw [foldl_wrap_eq_sum (fun e => (e.lock : Int)) (by intro e; dsimp only; omega) data 0
    (by omega) (by rw [hs]; omega)]
  rw [hs]; simp

/-- `acquire_lock` on an open worker handle, with the `int` counter resolved. -/
theorem acquire_lock_of_worker (w : Worker) (file : File) (N : Nat) (hw : w.opened N)
    (hisw : w.is_worker = true) (hf : file.length = N) (hsum : lock_sum file < 2147483647) :
    w.acquire_lock file =
      if 1 < lock_sum (file.set w.worker_id.toNat (w.worker.with_lock 1)) then
        (Errors.Locked,
          { w with
            data := (file.set w.worker_id.toNat (w.worker.with_lock 1)).set
                      w.worker_id.toNat (w.worker.with_lock 0) },
          file.set w.worker_id.toNat (w.worker.with_lock 1))
      else
        (Errors.Success,
          { w with data := file.set w.worker_id.toNat (w.worker.with_lock 1) },
          file.set w.worker_id.toNat (w.worker.with_lock 1)) := by
  have h1 := is_worker_modify_true w (fun e => { e with lock := 1 }) hisw
  have o1 := opened_modify w (fun e => { e with lock := 1 }) N hw
  have hlt := ((is_worker_iff w).mp hisw).2
  rw [hw.2.2] at hlt
  have hle := lock_sum_set_le file w.worker_id.toNat (w.worker.with_lock 1)
  have hbound : lock_sum (file.set w.worker_id.toNat (w.worker.with_lock 1)) < 2147483648 := by
    simp only [Entry.with_lock] at hle ⊢; omega
  have hwr : ((w.modify_worker (fun e => { e with lock := 1 })).write file).2 =
      file.set w.worker_id.toNat (w.worker.with_lock 1) := by
    rw [write_set _ _ N o1 h1 hf, worker_modify _ _ hisw, modify_worker_worker_id]
    rfl
  have hrd : ((w.modify_worker (fun e => { e with lock := 1 })).read
      (file.set w.worker_id.toNat (w.worker.with_lock 1))).2 =
      { w with data := file.set w.worker_id.toNat (w.worker.with_lock 1) } := by
    rw [read_opened _ _ N o1 (by simp [hf]), modify_worker_of_worker w _ hisw]
  have hisw2 : Worker.is_worker
      { w with data := file.set w.worker_id.toNat (w.worker.with_lock 1) } = true := by
    rw [is_worker_iff]
    exact ⟨((is_worker_iff w).mp hisw).1, by simp [hf, hlt]⟩
  have hmod : Worker.modify_worker
      { w with data := file.set w.worker_id.toNat (w.worker.with_lock 1) }
      (fun e => { e with lock := 0 }) =
      { w with
        data := (file.set w.worker_id.toNat (w.worker.with_lock 1)).set
                  w.worker_id.toNat (w.worker.with_lock 0) } := by
    rw [modify_worker_of_worker _ _ hisw2, worker_of_worker _ hisw2]
    simp [List.getD_eq_getElem?_getD, List.getElem?_set, hf, hlt, Entry.with_lock]
  unfold Worker.acquire_lock
  rw [is_monitor_eq_false w hisw, hw.1]
  simp only [Bool.false_eq_true, if_false, Bool.not_true]
  unfold Worker.acquire_lock_begin Worker.acquire_lock_end
  simp only [hwr, hrd]
  rw [count_locks_eq_lock_sum _ hbound]
  by_cases hc : 1 < lock_sum (file.set w.worker_id.toNat (w.worker.with_lock 1))
  · rw [if_pos hc]
    simp only [if_pos (show ((lock_sum (file.set w.worker_id.toNat (w.worker.with_lock 1)) : Nat)
      : Int) > 1 by omega), hmod]
    rw [hw.1]
  · rw [if_neg hc]
    simp only [if_neg (show ¬ ((lock_sum (file.set w.worker_id.toNat (w.worker.with_lock 1)) : Nat)
      : Int) > 1 by omega)]
    rw [hw.1]

/-- C4: outcome of `acquire_lock` run without interference. For an open worker handle with
index `i`: the file afterwards is the file before with slot `i` replaced by the handle's
own record with lock flag 1 (so every other slot is unchanged); the call returns `Locked`
exactly when the sum of the lock flags on file is then greater than 1, that is exactly
when some other slot has its flag set, and `Success` otherwise; after `Locked` the
in-memory flag of slot `i` is 0 while the file flag is 1, after `Success` both are 1.
For a monitor the call returns `Success` and changes neither file nor handle.
The bound on `lock_sum` keeps the `int` counter `locks` from overflowing. -/
theorem C4_acquire_lock_outcome (w : Worker) (file : File) (N : Nat) (hw : w.opened N)
    (hf : file.length = N) (hsum : lock_sum file < 2147483647) :
    (w.is_worker = true →
      (w.acquire_lock file).2.2 = file.set w.worker_id.toNat (w.worker.with_lock 1) ∧
      (w.acquire_lock file).2.2[w.worker_id.toNat]?.map Entry.lock = some 1 ∧
      (∀ j : Nat, j ≠ w.worker_id.toNat → (w.acquire_lock file).2.2[j]? = file[j]?) ∧
      ((w.acquire_lock file).1 = Errors.Locked ↔ 1 < lock_sum (w.acquire_lock file).2.2) ∧
      ((w.acquire_lock file).1 = Errors.Locked ↔
        ∃ (j : Nat) (e : Entry), j ≠ w.worker_id.toNat ∧ file[j]? = some e ∧ 0 < e.lock) ∧
      ((w.acquire_lock file).1 ≠ Errors.Locked → (w.acquire_lock file).1 = Errors.Success) ∧
      ((w.acquire_lock file).1 = Errors.Locked →
        (w.acquire_lock file).2.1.data[w.worker_id.toNat]?.map Entry.lock = some 0) ∧
      ((w.acquire_lock file).1 = Errors.Success →
        (w.acquire_lock file).2.1.data[w.worker_id.toNat]?.map Entry.lock = some 1)) ∧
    (w.is_worker = false → w.acquire_lock file = (Errors.Success, w, file)) := by
  constructor
  · intro hisw
    have hlt := ((is_worker_iff w).mp hisw).2
    rw [hw.2.2] at hlt
    have hown : (file.set w.worker_id.toNat (w.worker.with_lock 1))[w.worker_id.toNat]? =
        some (w.worker.with_lock 1) := by
      simp [List.getElem?_set, hf, hlt]
    have hother : ∀ j : Nat, j ≠ w.worker_id.toNat →
        (file.set w.worker_id.toNat (w.worker.with_lock 1))[j]? = file[j]? := by
      intro j hj
      rw [List.getElem?_set_ne (Ne.symm hj)]
    have hiff := lock_sum_le_one_iff (file.set w.worker_id.toNat (w.worker.with_lock 1))
      w.worker_id.toNat (w.worker.with_lock 1) hown rfl
    have hex : (1 < lock_sum (file.set w.worker_id.toNat (w.worker.with_lock 1))) ↔
        ∃ (j : Nat) (e : Entry), j ≠ w.worker_id.toNat ∧ file[j]? = some e ∧ 0 < e.lock := by
      constructor
      · intro h1
        by_contra hne
        have : lock_sum (file.set w.worker_id.toNat (w.worker.with_lock 1)) ≤ 1 := by
          apply hiff.mpr
          intro j e2 hj he2
          rw [hother j hj] at he2
          by_contra hpos
          exact hne ⟨j, e2, hj, he2, by omega⟩
        omega
      · rintro ⟨j, e, hj, he, hpos⟩
        by_contra hle
        have := hiff.mp (by omega) j e hj (by rw [hother j hj]; exact he)
        omega
    rw [acquire_lock_of_worker w file N hw hisw hf hsum]
    by_cases hc : 1 < lock_sum (file.set w.worker_id.toNat (w.worker.with_lock 1))
    · rw [if_pos hc]
      refine ⟨rfl, ?_, hother, ?_, ?_, ?_, ?_, ?_⟩
      · show (file.set w.worker_id.toNat (w.worker.with_lock 1))[w.worker_id.toNat]?.map
          Entry.lock = some 1
        rw [hown]; rfl
      · simp [hc]
      · simp only [true_iff]; exact hex.mp hc
      · intro h; exact absurd rfl h
      · intro _; simp [List.getElem?_set, hf, hlt, Entry.with_lock]
      · intro h; simp at h
    · rw [if_neg hc]
      refine ⟨rfl, ?_, hother, ?_, ?_, ?_, ?_, ?_⟩
      · show (file.set w.worker_id.toNat (w.worker.with_lock 1))[w.worker_id.toNat]?.map
          Entry.lock = some 1
        rw [hown]; rfl
      · simp [hc]
      · constructor
        · intro h; simp at h
        · intro h; exact absurd (hex.mpr h) hc
      · intro _; rfl
      · intro h; simp at h
      · intro _
        show (file.set w.worker_id.toNat (w.worker.with_lock 1))[w.worker_id.toNat]?.map
          Entry.lock = some 1
        rw [hown]; rfl
  · intro hmon
    unfold Worker.acquire_lock
    simp [is_monitor_eq_true w hmon]

/-- Witness of C4: on the two-record file worker 0 holds the lock; `acquire_lock` of
worker 1 returns `Locked`, its in-memory flag is 0 and its file flag is 1. -/
theorem C4_acquire_lock_outcome_witness :
    duo_open1.1.opened 2 ∧ duo_lock0.2.2.length = 2 ∧ lock_sum duo_lock0.2.2 < 2147483647 ∧
    duo_open1.1.is_worker = true ∧
    (duo_open1.1.acquire_lock duo_lock0.2.2).1 = Errors.Locked ∧
    (duo_open1.1.acquire_lock duo_lock0.2.2).2.1.data[1]?.map Entry.lock = some 0 ∧
    (duo_open1.1.acquire_lock duo_lock0.2.2).2.2[1]?.map Entry.lock = some 1 :=
  ⟨by decide, by decide, by decide, by decide,
    ((C4_acquire_lock_outcome duo_open1.1 duo_lock0.2.2 2 (by decide) (by decide)
      (by decide)).1 (by decide)).2.2.2.2.1.mpr ⟨0, duo_lock0.2.2.getD 0 Entry.zero,
        by decide, by decide, by decide⟩,
    by decide, by decide⟩

/-! ## Visibility of in-memory mutations -/

/-- A setter call returns, leaves the file alone and only touches the handle through
`worker()`. -/
theorem call_setter (hash : List Nat → Nat) (w : Worker) (file : File) (c : Call)
    (hc : c.is_setter = true) :
    ∃ f : Entry → Entry, w.call hash file c = some (w.modify_worker f, file) := by
  cases c <;> simp [Call.is_setter] at hc
  · exact ⟨_, rfl⟩
  · exact ⟨_, rfl⟩
  · exact ⟨_, rfl⟩
  · exact ⟨_, rfl⟩

/-- More fuel does not change a result. -/
theorem select_loop_mono (data : List Entry) (n : Nat) (offset : Int) :
    ∀ (fuel extra : Nat) (i k : Int), select_loop fuel data n offset i = some k →
      select_loop (fuel + extra) data n offset i = some k := by
  intro fuel
  induction fuel with
  | zero => intro extra i k h; simp [select_loop] at h
  | succ m ih =>
    intro extra i k h
    rw [show m + 1 + extra = (m + extra) + 1 by omega]
    simp only [select_loop] at h ⊢
    split at h
    · rename_i hge
      rw [if_pos hge]
      cases h1 : data[(toInt32 ((toSizeT (toInt32 (offset + i)) % n : Nat) : Int)).toNat]? with
      | none => rw [h1] at h; simp at h
      | some e =>
        rw [h1] at h
        simp only at h ⊢
        by_cases hs : e.status ≠ Status.Ready
        · rw [if_pos hs] at h ⊢
          exact ih extra _ k h
        · rw [if_neg hs] at h ⊢
          exact h
    · simp at h

/-- `select` on an open handle: one `read()`, then the probe loop on the file content. -/
theorem select_of_opened (hash : List Nat → Nat) (fuel : Nat) (w : Worker) (file : File)
    (key : List Nat) (N : Nat) (hN1 : 1 ≤ N) (hw : w.opened N) (hf : file.length = N) :
    w.select hash fuel file key =
      (select_loop fuel file N (toInt32 ((hash key % 18446744073709551616 : Nat) : Int)) 0).map
        (fun k => (k, { w with data := file })) := by
  unfold Worker.select
  simp only [read_opened w file N hw hf, hw.2.1]
  rw [if_neg (by omega)]

theorem acquire_lock_begin_spec (w : Worker) (file : File) (N : Nat) (hw : w.opened N)
    (hisw : w.is_worker = true) (hf : file.length = N) :
    (w.acquire_lock_begin file).2 = file.set w.worker_id.toNat (w.worker.with_lock 1) ∧
    (w.acquire_lock_begin file).1.opened N ∧
    (w.acquire_lock_begin file).1.is_worker = true ∧
    (w.acquire_lock_begin file).1.worker_id = w.worker_id := by
  have h1 := is_worker_modify_true w (fun e => { e with lock := 1 }) hisw
  have o1 := opened_modify w (fun e => { e with lock := 1 }) N hw
  unfold Worker.acquire_lock_begin
  refine ⟨?_, o1, h1, modify_worker_worker_id _ _⟩
  simp only
  rw [write_set _ _ N o1 h1 hf, worker_modify _ _ hisw, modify_worker_worker_id]
  rfl

theorem acquire_lock_end_spec (w : Worker) (file : File) (N : Nat) (hw : w.opened N)
    (hisw : w.is_worker = true) (hf : file.length = N) (hsum : lock_sum file < 2147483648) :
    (w.acquire_lock_end file).2.opened N ∧
    (w.acquire_lock_end file).2.is_worker = true ∧
    (w.acquire_lock_end file).2.worker_id = w.worker_id ∧
    ((w.acquire_lock_end file).1 = Errors.Success ↔ lock_sum file ≤ 1) := by
  have o1 := opened_read w file N hw hf
  have h1 : Worker.is_worker { w with data := file } = true := by
    rw [is_worker_iff] at hisw ⊢
    exact ⟨hisw.1, by rw [hw.2.2] at hisw; simpa [hf] using hisw.2⟩
  unfold Worker.acquire_lock_end
  simp only [read_opened w file N hw hf]
  rw [count_locks_eq_lock_sum _ hsum]
  by_cases hc : 1 < lock_sum file
  · simp only [if_pos (show ((lock_sum file : Nat) : Int) > 1 by omega)]
    refine ⟨opened_modify _ _ N o1, is_worker_modify_true _ _ h1, modify_worker_worker_id _ _, ?_⟩
    constructor
    · intro h; simp at h
    · intro h; omega
  · simp only [if_neg (show ¬ ((lock_sum file : Nat) : Int) > 1 by omega)]
    refine ⟨o1, h1, ?_, ?_⟩
    · first | rfl | trivial
    · constructor
      · intro _; omega
      · intro _; first | rfl | trivial

theorem unlock_spec (w : Worker) (file : File) (N : Nat) (hw : w.opened N)
    (hisw : w.is_worker = true) (hf : file.length = N) :
    (w.unlock file).2.1.opened N ∧ (w.unlock file).2.1.is_worker = true ∧
    (w.unlock file).2.1.worker_id = w.worker_id ∧
    ((w.unlock file).2.2 = file ∨
      (w.unlock file).2.2 = file.set w.worker_id.toNat (w.worker.with_lock 0)) := by
  unfold Worker.unlock
  rw [is_monitor_eq_false w hisw]
  simp only [Bool.false_eq_true, if_false]
  by_cases hl : w.worker.lock > 0
  · rw [if_pos hl]
    have h1 := is_worker_modify_true w (fun e => { e with lock := 0 }) hisw
    have o1 := opened_modify w (fun e => { e with lock := 0 }) N hw
    refine ⟨o1, h1, modify_worker_worker_id _ _, Or.inr ?_⟩
    simp only
    rw [write_set _ _ N o1 h1 hf, worker_modify _ _ hisw, modify_worker_worker_id]
    rfl
  · rw [if_neg hl]
    exact ⟨hw, hisw, rfl, Or.inl rfl⟩

theorem lock_sum_le_length (l : List Entry)
    (h : ∀ (j : Nat) (e : Entry), l[j]? = some e → e.lock ≤ 1) : lock_sum l ≤ l.length := by
  induction l with
  | nil => simp [lock_sum]
  | cons a t ih =>
    rw [lock_sum_cons, List.length_cons]
    have h0 := h 0 a (by simp)
    have ht := ih (fun j e he => h (j + 1) e (by simpa using he))
    omega

/-- Two distinct slots with flag 1 make the total exceed 1. -/
theorem lock_sum_two (l : List Entry) (i j : Nat) (e1 e2 : Entry) (hij : i ≠ j)
    (h1 : l[i]? = some e1) (h2 : l[j]? = some e2) (hl1 : e1.lock = 1) (hl2 : e2.lock = 1) :
    1 < lock_sum l := by
  by_contra hle
  have := (lock_sum_le_one_iff l i e1 h1 hl1).mp (by omega) j e2 (Ne.symm hij) h2
  omega

theorem toNat_ne_of_worker (a b : Worker) (ha : a.is_worker = true) (hb : b.is_worker = true)
    (h : a.worker_id ≠ b.worker_id) : a.worker_id.toNat ≠ b.worker_id.toNat := by
  have h1 := ((is_worker_iff a).mp ha).1
  have h2 := ((is_worker_iff b).mp hb).1
  omega

/-- The invariant survives a step of process `p` that rewrites at most the file slot of
`p` with a flag of 0 or 1, keeps the flag at 1 when `p` ends up inside `acquire_lock` or
holding, and lets `p` start holding only when the flag total on file is at most 1. -/
theorem inv_update (s : Sys) (N : Nat) (p : Nat) (pr pr2 : Proc) (file2 : File)
    (hinv : s.inv N) (hp : s.procs[p]? = some pr)
    (hop : pr2.w.opened N) (hisw : pr2.w.is_worker = true)
    (hid : pr2.w.worker_id = pr.w.worker_id)
    (hlen : file2.length = N)
    (hframe : ∀ j : Nat, j ≠ pr.w.worker_id.toNat → file2[j]? = s.file[j]?)
    (hown : ∀ e : Entry, file2[pr.w.worker_id.toNat]? = some e → e.lock ≤ 1)
    (hflag : pr2.acquiring = true ∨ pr2.holds = true →
      ∃ e : Entry, file2[pr.w.worker_id.toNat]? = some e ∧ e.lock = 1)
    (hholds : pr2.holds = true → pr.holds = true ∨ lock_sum file2 ≤ 1) :
    Sys.inv { file := file2, procs := s.procs.set p pr2 } N := by
  obtain ⟨i1, i2, i3, i4, i5⟩ := hinv
  have hplt : p < s.procs.length := by
    by_contra hge
    rw [List.getElem?_eq_none (by omega)] at hp
    simp at hp
  have hget : ∀ (q : Nat) (qr : Proc), (s.procs.set p pr2)[q]? = some qr →
      (q = p ∧ qr = pr2) ∨ (q ≠ p ∧ s.procs[q]? = some qr) := by
    intro q qr hq
    by_cases hqp : q = p
    · subst hqp
      simp [List.getElem?_set, hplt] at hq
      exact Or.inl ⟨rfl, hq.symm⟩
    · rw [List.getElem?_set_ne (Ne.symm hqp)] at hq
      exact Or.inr ⟨hqp, hq⟩
  have hprw := (i3 p pr hp).2.1
  refine ⟨hlen, ?_, ?_, ?_, ?_⟩
  · intro j e he
    by_cases hj : j = pr.w.worker_id.toNat
    · subst hj; exact hown e he
    · rw [hframe j hj] at he; exact i2 j e he
  · intro q qr hq
    rcases hget q qr hq with ⟨_, rfl⟩ | ⟨hqp, hq2⟩
    · refine ⟨hop, hisw, ?_⟩
      rw [hid]; exact hflag
    · obtain ⟨o, w, f⟩ := i3 q qr hq2
      refine ⟨o, w, ?_⟩
      intro h
      obtain ⟨e, he, hl⟩ := f h
      refine ⟨e, ?_, hl⟩
      rw [hframe _ (toNat_ne_of_worker _ _ w hprw (i4 q p qr pr hqp hq2 hp))]
      exact he
  · intro a b ar br hab ha hb
    rcases hget a ar ha with ⟨ha1, rfl⟩ | ⟨ha1, ha2⟩ <;>
      rcases hget b br hb with ⟨hb1, rfl⟩ | ⟨hb1, hb2⟩
    · omega
    · rw [hid]; exact i4 p b pr br (by omega) hp hb2
    · rw [hid]; exact i4 a p ar pr (by omega) ha2 hp
    · exact i4 a b ar br hab ha2 hb2
  · have hexcl : ∀ (q : Nat) (qr : Proc), q ≠ p → s.procs[q]? = some qr →
        pr2.holds = true → qr.holds = false := by
      intro q qr hqp hq2 hh
      rcases hholds hh with hold | hsum
      · exact i5 p q pr qr (Ne.symm hqp) hp hq2 hold
      · by_contra hqh
        simp only [Bool.not_eq_false] at hqh
        obtain ⟨o, w, f⟩ := i3 q qr hq2
        obtain ⟨e, he, hl⟩ := f (Or.inr hqh)
        have hne := toNat_ne_of_worker _ _ w hprw (i4 q p qr pr hqp hq2 hp)
        rw [← hframe _ hne] at he
        obtain ⟨e2, he2, hl2⟩ := hflag (Or.inr hh)
        have := lock_sum_two file2 _ _ e e2 hne he he2 hl hl2
        omega
    intro a b ar br hab ha hb hah
    rcases hget a ar ha with ⟨ha1, rfl⟩ | ⟨ha1, ha2⟩ <;>
      rcases hget b br hb with ⟨hb1, rfl⟩ | ⟨hb1, hb2⟩
    · omega
    · exact hexcl b br hb1 hb2 hah
    · by_contra hbh
      simp only [Bool.not_eq_false] at hbh
      have := hexcl a ar ha1 ha2 hbh
      rw [this] at hah
      exact absurd hah (by decide)
    · exact i5 a b ar br hab ha2 hb2 hah

/-- Every atomic step preserves the invariant. -/
theorem step_inv (s : Sys) (N : Nat) (hN : N < 2147483648) (hinv : s.inv N) (p : Nat)
    (a : Action) : (s.step p a).inv N := by
  unfold Sys.step
  cases hp : s.procs[p]? with
  | none => exact hinv
  | some pr =>
    obtain ⟨i1, i2, i3, i4, i5⟩ := id hinv
    obtain ⟨hop, hisw, hfl⟩ := i3 p pr hp
    have hlt := ((is_worker_iff pr.w).mp hisw).2
    rw [hop.2.2] at hlt
    have hsum : lock_sum s.file < 2147483648 := by
      have := lock_sum_le_length s.file i2
      omega
    cases a <;> cases hacq : pr.acquiring <;> simp only [hacq]
    · -- acquire_write, outside of a call
      rw [is_monitor_eq_false pr.w hisw, hop.1]
      simp only [Bool.false_eq_true, if_false, Bool.not_true]
      obtain ⟨b1, b2, b3, b4⟩ := acquire_lock_begin_spec pr.w s.file N hop hisw i1
      rw [b1]
      refine inv_update s N p pr (Proc.mk (pr.w.acquire_lock_begin s.file).1 true pr.holds)
        (s.file.set pr.w.worker_id.toNat (pr.w.worker.with_lock 1)) hinv hp b2 b3 b4
        (by simp [i1]) ?_ ?_ ?_ ?_
      · intro j hj
        rw [List.getElem?_set_ne (Ne.symm hj)]
      · intro e he
        simp [List.getElem?_set, i1, hlt] at he
        rw [← he]; simp [Entry.with_lock]
      · intro _
        exact ⟨pr.w.worker.with_lock 1, by simp [List.getElem?_set, i1, hlt], rfl⟩
      · intro h; exact Or.inl h
    · exact hinv
    · exact hinv
    · -- acquire_read, inside acquire_lock
      obtain ⟨e1, e2, e3, e4⟩ := acquire_lock_end_spec pr.w s.file N hop hisw i1 hsum
      refine inv_update s N p pr (Proc.mk (pr.w.acquire_lock_end s.file).2 false
        (pr.holds || decide ((pr.w.acquire_lock_end s.file).1 = Errors.Success)))
        s.file hinv hp e1 e2 e3 i1 (fun _ _ => rfl) ?_ ?_ ?_
      · intro e he; exact i2 _ e he
      · intro _; exact hfl (Or.inl hacq)
      · intro h
        simp only [Bool.or_eq_true, decide_eq_true_eq] at h
        rcases h with h | h
        · exact Or.inl h
        · exact Or.inr (e4.mp h)
    · -- unlock, outside of a call
      obtain ⟨u1, u2, u3, u4⟩ := unlock_spec pr.w s.file N hop hisw i1
      refine inv_update s N p pr (Proc.mk (pr.w.unlock s.file).2.1 false false)
        (pr.w.unlock s.file).2.2 hinv hp u1 u2 u3 ?_ ?_ ?_ ?_ ?_
      · rcases u4 with h | h <;> rw [h] <;> simp [i1]
      · intro j hj
        rcases u4 with h | h <;> rw [h]
        rw [List.getElem?_set_ne (Ne.symm hj)]
      · intro e he
        rcases u4 with h | h <;> rw [h] at he
        · exact i2 _ e he
        · simp [List.getElem?_set, i1, hlt] at he
          rw [← he]; simp [Entry.with_lock]
      · intro h; simp at h
      · intro h; simp at h
    · exact hinv

/-- The invariant holds at the start of a run. -/
theorem initial_inv (s : Sys) (N : Nat) (h : s.initial N) : s.inv N := by
  obtain ⟨h1, h2, h3, h4⟩ := h
  refine ⟨h1, ?_, ?_, ?_, ?_⟩
  · intro j e he
    have := h2 e (List.getElem?_mem he)
    omega
  · intro p pr hp
    obtain ⟨a, b, c, d⟩ := h3 pr (List.getElem?_mem hp)
    refine ⟨a, b, ?_⟩
    intro hor
    rcases hor with hx | hx
    · rw [c] at hx; exact absurd hx (by decide)
    · rw [d] at hx; exact absurd hx (by decide)
  · intro p q pr qr hpq hp hq heq
    have hpl : p < s.procs.length := by
      by_contra hge
      rw [List.getElem?_eq_none (by omega)] at hp; simp at hp
    have hql : q < s.procs.length := by
      by_contra hge
      rw [List.getElem?_eq_none (by omega)] at hq; simp at hq
    rw [List.getElem?_eq_getElem hpl] at hp
    rw [List.getElem?_eq_getElem hql] at hq
    simp only [Option.some.injEq] at hp hq
    have hinj := (List.nodup_iff_injective_get.mp h4)
    have : (⟨p, by simpa using hpl⟩ : Fin (s.procs.map (fun pr => pr.w.worker_id)).length) =
        ⟨q, by simpa using hql⟩ := by
      apply hinj
      simp [hp, hq, heq]
    simp at this
    exact hpq this
  · intro p q pr qr _ hp _ hh
    obtain ⟨_, _, _, d⟩ := h3 pr (List.getElem?_mem hp)
    rw [d] at hh; exact absurd hh (by decide)

/-- The invariant holds after every schedule. -/
theorem run_inv (N : Nat) (hN : N < 2147483648) (sched : List (Nat × Action)) :
    ∀ s : Sys, s.inv N → (s.run sched).inv N := by
  induction sched with
  | nil => intro s h; exact h
  | cons pa rest ih =>
    intro s h
    exact ih _ (step_inv s N hN h pa.1 pa.2)

theorem acquire_lock_end_cases (w : Worker) (file : File) :
    (w.acquire_lock_end file).1 = Errors.Success ∨ (w.acquire_lock_end file).1 = Errors.Locked := by
  unfold Worker.acquire_lock_end
  simp only
  split
  · exact Or.inr rfl
  · exact Or.inl rfl

/-- The two atomic steps of `acquire_lock`, taken one after the other by the same process,
are the sequential `acquire_lock`. -/
theorem step_acquire_eq_acquire_lock (s : Sys) (p : Nat) (pr : Proc)
    (hp : s.procs[p]? = some pr) (hacq : pr.acquiring = false)
    (hisw : pr.w.is_worker = true) (hh : pr.w.handle = true) :
    ((s.step p Action.acquire_write).step p Action.acquire_read).file =
      (pr.w.acquire_lock s.file).2.2 ∧
    ((s.step p Action.acquire_write).step p Action.acquire_read).procs[p]? =
      some { w := (pr.w.acquire_lock s.file).2.1, acquiring := false,
             holds := pr.holds || decide ((pr.w.acquire_lock s.file).1 = Errors.Success) } := by
  have hplt : p < s.procs.length := by
    by_contra hge
    rw [List.getElem?_eq_none (by omega)] at hp
    simp at hp
  have h1 : s.step p Action.acquire_write =
      { file := (pr.w.acquire_lock_begin s.file).2,
        procs := s.procs.set p (Proc.mk (pr.w.acquire_lock_begin s.file).1 true pr.holds) } := by
    unfold Sys.step
    simp only [hp, hacq, is_monitor_eq_false pr.w hisw, hh]
    simp
  rw [h1]
  unfold Sys.step Worker.acquire_lock
  simp [List.getElem?_set, hplt, is_monitor_eq_false pr.w hisw, hh]

/-- C3: mutual exclusion of the lock. Start from a file of `N` records with all lock flags
0 and any number of open worker handles with pairwise distinct indices, and let the
processes take the atomic steps of their `acquire_lock` and `unlock` calls in any
interleaving (any schedule). Then in the state reached, while a process `p` is between a
`Success` return of `acquire_lock` and its next `unlock`, no other process `q` is in that
situation, the pending `read()` of a `q` that is inside `acquire_lock` makes its
call return `Locked`, and whatever step `q` takes next it does not come to hold the lock.
`N < 2^31` keeps the `int` counter `locks` exact. -/
theorem C3_mutual_exclusion (s : Sys) (N : Nat) (hN : N < 2147483648) (hinit : s.initial N)
    (sched : List (Nat × Action)) :
    ∀ (p q : Nat) (pr qr : Proc), p ≠ q →
      (s.run sched).procs[p]? = some pr → (s.run sched).procs[q]? = some qr →
      pr.holds = true →
        qr.holds = false ∧
        (qr.acquiring = true →
          (qr.w.acquire_lock_end (s.run sched).file).1 = Errors.Locked) ∧
        (∀ (a : Action) (qr2 : Proc),
          ((s.run sched).step q a).procs[q]? = some qr2 → qr2.holds = false) := by
  intro p q pr qr hpq hp hq hh
  have hinv := run_inv N hN sched s (initial_inv s N hinit)
  obtain ⟨i1, i2, i3, i4, i5⟩ := id hinv
  refine ⟨i5 p q pr qr hpq hp hq hh, ?_, ?_⟩
  · intro hacq
    obtain ⟨po, pw, pf⟩ := i3 p pr hp
    obtain ⟨qo, qw, qf⟩ := i3 q qr hq
    obtain ⟨e1, he1, hl1⟩ := pf (Or.inr hh)
    obtain ⟨e2, he2, hl2⟩ := qf (Or.inl hacq)
    have hne := toNat_ne_of_worker _ _ pw qw (i4 p q pr qr hpq hp hq)
    have hbig := lock_sum_two _ _ _ e1 e2 hne he1 he2 hl1 hl2
    have hsum : lock_sum (s.run sched).file < 2147483648 := by
      have := lock_sum_le_length (s.run sched).file i2
      omega
    have hspec := (acquire_lock_end_spec qr.w (s.run sched).file N qo qw i1 hsum).2.2.2
    rcases acquire_lock_end_cases qr.w (s.run sched).file with h | h
    · have := hspec.mp h
      omega
    · exact h
  · intro a qr2 hq2
    have hinv2 := step_inv (s.run sched) N hN hinv q a
    have hp2 : ((s.run sched).step q a).procs[p]? = some pr := by
      have hsame : ∀ t : Sys, t.procs = (s.run sched).procs ∨
          (∃ x : Proc, t.procs = (s.run sched).procs.set q x) → t.procs[p]? = some pr := by
        intro t ht
        rcases ht with h | ⟨x, h⟩
        · rw [h]; exact hp
        · rw [h, List.getElem?_set_ne (Ne.symm hpq)]; exact hp
      apply hsame
      unfold Sys.step
      rw [hq]
      simp only
      split
      · split
        · exact Or.inr ⟨_, rfl⟩
        · split
          · exact Or.inl rfl
          · exact Or.inr ⟨_, rfl⟩
      · exact Or.inr ⟨_, rfl⟩
      · exact Or.inr ⟨_, rfl⟩
      · exact Or.inl rfl
    exact hinv2.2.2.2.2 p q pr qr2 hpq hp2 hq2 hh

/-- Witness of C3: three workers on a fresh file; after the schedule process 0 holds the
lock, process 1 is inside `acquire_lock`, process 2 has failed. -/
theorem C3_mutual_exclusion_witness :
    (3 < 2147483648) ∧ trio.initial 3 ∧
    (trio.run trio_schedule).procs.map (fun pr => (pr.acquiring, pr.holds)) =
      [(true, true), (true, false), (false, false)] ∧
    (∀ (p q : Nat) (pr qr : Proc), p ≠ q →
      (trio.run trio_schedule).procs[p]? = some pr →
      (trio.run trio_schedule).procs[q]? = some qr →
      pr.holds = true →
        qr.holds = false ∧
        (qr.acquiring = true →
          (qr.w.acquire_lock_end (trio.run trio_schedule).file).1 = Errors.Locked) ∧
        (∀ (a : Action) (qr2 : Proc),
          ((trio.run trio_schedule).step q a).procs[q]? = some qr2 → qr2.holds = false)) :=
  ⟨by decide, by decide, by decide,
    C3_mutual_exclusion trio 3 (by decide) (by decide) trio_schedule⟩

/-! ## The soft timeout of the barrier when some slot is `Ready` -/

/-- Once an iteration has counted a `Ready` slot, the barrier loop returns the `Ready` count
within `timeout - passed + 1` further reads. -/
theorem rendezvous_loop_times_out (N : Nat) (file : File) (timeout : Int)
    (hN : N < 2147483648) (hf : file.length = N) (ht0 : 0 < timeout)
    (ht1 : timeout < 2147483647) (hr : status_count Status.Ready file ≠ 0) :
    ∀ (k : Nat) (w : Worker) (passed : Int), w.opened N → 0 ≤ passed →
      passed + (k : Int) = timeout →
      (w.rendezvous_loop (k + 1) file timeout passed (status_count Status.Ready file : Int)).map
        Prod.fst = some (status_count Status.Ready file : Int) := by
  intro k
  induction k with
  | zero =>
    intro w passed hw hp hk
    rw [rendezvous_loop_succ 0 w file N timeout passed _ hN hw hf]
    rw [if_pos (by omega : ((status_count Status.Ready file : Nat) : Int) ≠ 0)]
    rw [toInt32_eq_self (passed + 1) (by omega) (by omega)]
    rw [if_pos ⟨by omega, by simp at hk; omega⟩]
    rfl
  | succ m ih =>
    intro w passed hw hp hk
    rw [rendezvous_loop_succ (m + 1) w file N timeout passed _ hN hw hf]
    rw [if_pos (by omega : ((status_count Status.Ready file : Nat) : Int) ≠ 0)]
    rw [toInt32_eq_self (passed + 1) (by omega) (by omega)]
    rw [if_neg (by push_cast at hk; omega)]
    by_cases hc : status_count Status.Ready file + status_count Status.Stopped file ≠ N
    · rw [if_pos hc]
      exact ih _ (passed + 1) (opened_read w file N hw hf) (by omega) (by push_cast at hk; omega)
    · rw [if_neg hc]
      rfl

/-- On an open handle, with at least one `Ready` slot on a file that nobody changes and
`0 < timeout < 2^31 - 1`, `rendezvous(timeout)` returns the number of `Ready` slots after
at most `timeout + 2` reads. -/
theorem rendezvous_soft_timeout (w : Worker) (file : File) (N : Nat) (timeout : Int)
    (hN : N < 2147483648) (hw : w.opened N) (hf : file.length = N) (ht0 : 0 < timeout)
    (ht1 : timeout < 2147483647) (hr : status_count Status.Ready file ≠ 0) :
    (w.rendezvous (timeout.toNat + 2) file timeout).map Prod.fst =
      some (status_count Status.Ready file : Int) := by
  unfold Worker.rendezvous
  rw [hw.1]
  simp only [Bool.not_true, Bool.false_eq_true, if_false]
  rw [rendezvous_loop_succ (timeout.toNat + 1) w file N timeout 0 0 hN hw hf]
  have hnt : ¬ (timeout > 0 ∧ (if (0 : Int) ≠ 0 then toInt32 (0 + 1) else 0) > timeout) := by
    simp only [ne_eq, not_true_eq_false, if_false]; omega
  rw [if_neg hnt]
  by_cases hc : status_count Status.Ready file + status_count Status.Stopped file ≠ N
  · rw [if_pos hc]
    simp only [ne_eq, not_true_eq_false, if_false]
    exact rendezvous_loop_times_out N file timeout hN hf ht0 ht1 hr timeout.toNat _ 0
      (opened_read w file N hw hf) (by omega) (by omega)
  · rw [if_neg hc]
    rfl

/-- The run of main.cpp:13-16: `rendezvous(1)` on worker 4 returns 1 with the third read,
not earlier. -/
theorem main_rendezvous_timeout :
    (main_open.1.rendezvous 3 (main_open.2.getD []) 1).map Prod.fst = some 1 ∧
    main_open.1.rendezvous 2 (main_open.2.getD []) 1 = none := by
  constructor
  · rw [show (3 : Nat) = (1 : Int).toNat + 2 by decide]
    rw [rendezvous_soft_timeout main_open.1 (main_open.2.getD []) 5 1 (by decide) (by decide)
      (by decide) (by decide) (by decide) (by decide)]
    decide
  · decide

/-! ## Initialisation and opening -/

/-- C11: when the file can be opened for writing, `init_ipe(path, n)` returns `Success`
and leaves at the path exactly `n` records, each the zero-value record (name empty, status
`None`, time 0, lock 0, value empty), whatever the path held before; when the file cannot
be opened for writing it returns `ReadOnlyFs` and the path holds what it held before. -/
theorem C11_init_ipe (disk : Option File) (n : Nat) :
    (init_ipe true disk n).1 = Errors.Success ∧
    (∃ file : File, (init_ipe true disk n).2 = some file ∧ file.length = n ∧
      ∀ e ∈ file, e = Entry.zero ∧ c_str e.name = [] ∧ e.status = Status.None ∧
        e.time = 0 ∧ e.lock = 0 ∧ c_str e.value = []) ∧
    init_ipe false disk n = (Errors.ReadOnlyFs, disk) := by
  refine ⟨rfl, ⟨List.replicate n Entry.zero, rfl, by simp, ?_⟩, rfl⟩
  intro e he
  have h := List.eq_of_mem_replicate he
  subst h
  exact ⟨rfl, by decide, rfl, rfl, rfl, by decide⟩

/-- C16: opening a worker handle with index `wid`, `0 <= wid < N`, on an existing file of
`N` records overwrites file slot `wid` with the record that has an empty name, status
`Ready`, time 0, lock 0 and an empty value, whatever the slot held before, and leaves
every other slot unchanged; opening a monitor handle (index negative, or at least `N`)
leaves the whole file unchanged. -/
theorem C16_open_handle (wid : Int) (file : File) (N : Nat) (hf : file.length = N) :
    ((0 ≤ wid ∧ wid < (N : Int)) →
      ∃ file2 : File, (Worker.ctor wid (some file) N).2 = some file2 ∧ file2.length = N ∧
        file2[wid.toNat]? =
          some (Entry.mk (List.replicate 16 0) Status.Ready 0 0 (List.replicate 64 0)) ∧
        ∀ j : Nat, j ≠ wid.toNat → file2[j]? = file[j]?) ∧
    ((wid < 0 ∨ (N : Int) ≤ wid) → (Worker.ctor wid (some file) N).2 = some file) := by
  obtain ⟨_, hwk, hmon⟩ := ctor_spec wid file N hf
  constructor
  · intro h
    have hlt : wid.toNat < N := by omega
    obtain ⟨h1, _, _⟩ := hwk ⟨h.1, hlt⟩
    refine ⟨_, h1, by simp [hf], ?_, ?_⟩
    · simp [List.getElem?_set, hf, hlt, Entry.zero, NAME_SIZE, VALUE_SIZE]
    · intro j hj
      rw [List.getElem?_set_ne (Ne.symm hj)]
  · intro h
    exact (hmon (by omega)).1

/-- Witness of C16: a second handle for worker 4 is opened on the file of main.cpp after
`set_name("new_worker"); set_time(10); write()`: name and time of slot 4 are erased. -/
theorem C16_open_handle_witness :
    main_publish.2.length = 5 ∧ ((0 : Int) ≤ 4 ∧ (4 : Int) < ((5 : Nat) : Int)) ∧
    main_publish.2[4]?.map (fun e => (c_str e.name, e.time)) =
      some ([110, 101, 119, 95, 119, 111, 114, 107, 101, 114], 10) ∧
    (∃ file2 : File, (Worker.ctor 4 (some main_publish.2) 5).2 = some file2 ∧
        file2.length = 5 ∧
        file2[(4 : Int).toNat]? =
          some (Entry.mk (List.replicate 16 0) Status.Ready 0 0 (List.replicate 64 0)) ∧
        ∀ j : Nat, j ≠ (4 : Int).toNat → file2[j]? = main_publish.2[j]?) :=
  ⟨by decide, by decide, by decide,
    (C16_open_handle 4 main_publish.2 5 (by decide)).1 (by decide)⟩

/-! ## Handles without an open file -/

/-- C15, as stated, fails for a monitor: on a monitor handle whose `fopen` failed,
`write()` returns `Success`, not `MissingFile` (the monitor guard of ipe.cpp:234 comes
before the handle check). -/
theorem C15_monitor_write_counterexample :
    (Worker.ctor (-1) none 5).1.handle = false ∧
    (Worker.ctor (-1) none 5).1.is_worker = false ∧
    ((Worker.ctor (-1) none 5).1.write []).1 = Errors.Success ∧
    ((Worker.ctor (-1) none 5).1.write []).1 ≠ Errors.MissingFile := by
  decide

/-- C15, amended: on a handle with no open file `read()` returns `MissingFile` (worker or
monitor), `write()` returns `MissingFile` on a worker and `Success` on a monitor, and none
of these calls changes the handle or the file; on a handle with an open file `read()` and
`write()` return `Success`. -/
theorem C15_missing_file (hash : List Nat → Nat) (w : Worker) (file : File) :
    (w.handle = false →
      w.read file = (Errors.MissingFile, w) ∧
      w.call hash file Call.read = some (w, file) ∧
      (w.is_worker = true → w.write file = (Errors.MissingFile, file)) ∧
      (w.is_worker = false → w.write file = (Errors.Success, file)) ∧
      w.call hash file Call.write = some (w, file)) ∧
    (w.handle = true →
      (w.read file).1 = Errors.Success ∧ (w.write file).1 = Errors.Success) := by
  constructor
  · intro hh
    have hr : w.read file = (Errors.MissingFile, w) := by
      unfold Worker.read; simp [hh]
    have hw1 : w.is_worker = true → w.write file = (Errors.MissingFile, file) := by
      intro hisw
      unfold Worker.write; simp [is_monitor_eq_false w hisw, hh]
    have hw2 : w.is_worker = false → w.write file = (Errors.Success, file) :=
      write_of_monitor w file
    refine ⟨hr, ?_, hw1, hw2, ?_⟩
    · simp [Worker.call, hr]
    · cases hisw : w.is_worker
      · simp [Worker.call, hw2 hisw]
      · simp [Worker.call, hw1 hisw]
  · intro hh
    constructor
    · unfold Worker.read; simp [hh]
    · unfold Worker.write
      cases hm : w.is_monitor <;> simp [hh]

/-- Witness of C15 (amended): a worker handle and a monitor handle built on a path that
cannot be opened. -/
theorem C15_missing_file_witness :
    (Worker.ctor 4 none 5).1.handle = false ∧
    (Worker.ctor 4 none 5).1.read [] = (Errors.MissingFile, (Worker.ctor 4 none 5).1) ∧
    ((Worker.ctor 4 none 5).1.write []).1 = Errors.MissingFile ∧
    main_open.1.handle = true ∧
    (main_open.1.read (main_open.2.getD [])).1 = Errors.Success ∧
    (main_open.1.write (main_open.2.getD [])).1 = Errors.Success :=
  ⟨by decide,
    ((C15_missing_file (fun _ => 0) (Worker.ctor 4 none 5).1 []).1 (by decide)).1,
    by rw [((C15_missing_file (fun _ => 0) (Worker.ctor 4 none 5).1 []).1 (by decide)).2.2.1
      (by decide)],
    by decide,
    ((C15_missing_file (fun _ => 0) main_open.1 (main_open.2.getD [])).2 (by decide)).1,
    ((C15_missing_file (fun _ => 0) main_open.1 (main_open.2.getD [])).2 (by decide)).2⟩

/-! ## The truncating setters -/

theorem memcpy_eq (dst src : List Nat) (n : Nat) (h : n ≤ src.length) :
    memcpy dst src n = src.take n ++ dst.drop n := by
  unfold memcpy
  rw [List.length_take, Nat.min_eq_left h]

theorem modify_worker_other (w : Worker) (f : Entry → Entry) (j : Nat)
    (hj : j ≠ w.worker_id.toNat) : (w.modify_worker f).data[j]? = w.data[j]? := by
  unfold Worker.modify_worker
  split
  · rfl
  · simp only
    rw [List.getElem?_set_ne (Ne.symm hj)]

/-- C17: on a worker handle, `set_name(p, len)` copies exactly the first `min(len, 16)`
bytes of `p` to the start of the name buffer of the own slot, and `set_data(p, len)` the
first `min(len, 64)` bytes to the start of its value buffer (`p` holding at least that
many bytes); the remaining bytes of that buffer, the other fields of the record and the
other slots of the handle are unchanged. -/
theorem C17_truncating_setters (w : Worker) (p : List Nat) (len : Nat)
    (hisw : w.is_worker = true) :
    (min len 16 ≤ p.length →
      (w.set_name p len).worker =
        { w.worker with name := p.take (min len 16) ++ w.worker.name.drop (min len 16) } ∧
      (w.worker.name.length = 16 → (w.set_name p len).worker.name.length = 16) ∧
      ∀ j : Nat, j ≠ w.worker_id.toNat → (w.set_name p len).data[j]? = w.data[j]?) ∧
    (min len 64 ≤ p.length →
      (w.set_data p len).worker =
        { w.worker with value := p.take (min len 64) ++ w.worker.value.drop (min len 64) } ∧
      (w.worker.value.length = 64 → (w.set_data p len).worker.value.length = 64) ∧
      ∀ j : Nat, j ≠ w.worker_id.toNat → (w.set_data p len).data[j]? = w.data[j]?) := by
  have hcap1 : (if len > NAME_SIZE then NAME_SIZE else len) = min len 16 := by
    unfold NAME_SIZE; split <;> omega
  have hcap2 : (if len > VALUE_SIZE then VALUE_SIZE else len) = min len 64 := by
    unfold VALUE_SIZE; split <;> omega
  constructor
  · intro hp
    have hw : (w.set_name p len).worker =
        { w.worker with name := p.take (min len 16) ++ w.worker.name.drop (min len 16) } := by
      unfold Worker.set_name
      rw [worker_modify _ _ hisw, hcap1, memcpy_eq _ _ _ hp]
    refine ⟨hw, ?_, fun j hj => modify_worker_other w _ j hj⟩
    intro hl
    rw [hw]
    simp only [List.length_append, List.length_take, List.length_drop, hl]
    omega
  · intro hp
    have hw : (w.set_data p len).worker =
        { w.worker with value := p.take (min len 64) ++ w.worker.value.drop (min len 64) } := by
      unfold Worker.set_data
      rw [worker_modify _ _ hisw, hcap2, memcpy_eq _ _ _ hp]
    refine ⟨hw, ?_, fun j hj => modify_worker_other w _ j hj⟩
    intro hl
    rw [hw]
    simp only [List.length_append, List.length_take, List.length_drop, hl]
    omega

/-- Witness of C17: `set_data("abcdef", 6)` then `set_data("xy", 2)` on worker 4 of
main.cpp reads back as `"xycdef"`; a name of 20 bytes is cut to its first 16. -/
theorem C17_truncating_setters_witness :
    main_abcdef.is_worker = true ∧ min 2 64 ≤ [120, 121].length ∧
    main_xy.worker =
      { main_abcdef.worker with
        value := [120, 121].take (min 2 64) ++ main_abcdef.worker.value.drop (min 2 64) } ∧
    c_str main_xy.worker.value = [120, 121, 99, 100, 101, 102] ∧
    (main_open.1.set_name (List.replicate 20 65) 20).worker.name = List.replicate 16 65 :=
  ⟨by decide, by decide,
    ((C17_truncating_setters main_abcdef [120, 121] 2 (by decide)).2 (by decide)).1,
    by decide, by decide⟩

/-! ## Probe order of the selector -/

/-- C13 (code defect): the hash is truncated to a signed `int` and converted back to
`std::size_t` at each probe, so with a negative offset the probe sequence jumps from
`(2^64 - 1) mod N` to `0` when `offset + i` reaches 0. On a file of six records with slots
0 and 4 `Ready` and a key whose hash truncates to -1, the first probe is slot 3, the
first `Ready` slot in cyclic order from 3 is slot 4, and `select` returns 0. -/
theorem C13_select_probe_order_breaks :
    (six_open.1.getD 0 (Worker.ctor 0 none 6).1).opened 6 ∧
    (six_open.2.getD []).map Entry.status =
      [Status.Ready, Status.None, Status.None, Status.None, Status.Ready, Status.None] ∧
    first_probe hash_minus_one [] 6 = 3 ∧
    cyclic_first_ready (six_open.2.getD []) (first_probe hash_minus_one [] 6) = some 4 ∧
    (∀ fuel : Nat,
      ((six_open.1.getD 0 (Worker.ctor 0 none 6).1).select hash_minus_one (fuel + 2)
        (six_open.2.getD []) []).map Prod.fst = some 0) := by
  refine ⟨by decide, by decide, by decide, by decide, ?_⟩
  intro fuel
  have h2 : select_loop 2 (six_open.2.getD []) 6
      (toInt32 ((hash_minus_one [] % 18446744073709551616 : Nat) : Int)) 0 = some 0 := by
    decide
  have hm := select_loop_mono _ _ _ 2 fuel 0 0 h2
  rw [select_of_opened hash_minus_one _ _ _ [] 6 (by decide) (by decide) (by decide)]
  rw [show fuel + 2 = 2 + fuel by omega, hm]
  rfl

/-- While `offset + i` stays within the non-negative `int` range, the probe loop is a
search along `(offset + j) mod N` for `j = i, i + 1, ...`. -/
theorem select_loop_eq_find (data : List Entry) (N : Nat) (offset : Nat) (hN1 : 1 ≤ N)
    (hN : N < 2147483648) (hd : data.length = N) :
    ∀ (m i : Nat), offset + i + m < 2147483648 →
      (((List.range' i m).map (fun j => (offset + j) % N)).find?
        (fun k => decide (data[k]?.map Entry.status = some Status.Ready))).isSome = true →
      select_loop m data N (offset : Int) (i : Int) =
        (((List.range' i m).map (fun j => (offset + j) % N)).find?
          (fun k => decide (data[k]?.map Entry.status = some Status.Ready))).map
            (fun k => (k : Int)) := by
  intro m
  induction m with
  | zero => intro i _ h; simp at h
  | succ n ih =>
    intro i hb hsome
    have hlt : (offset + i) % N < N := Nat.mod_lt _ (by omega)
    have h1 : toInt32 ((offset : Int) + (i : Int)) = ((offset + i : Nat) : Int) := by
      rw [toInt32_eq_self _ (by omega) (by omega)]; push_cast; rfl
    have h2 : toInt32 ((i : Int) + 1) = ((i + 1 : Nat) : Int) := by
      rw [toInt32_eq_self _ (by omega) (by omega)]; push_cast; rfl
    have h3 : toInt32 (((offset + i) % N : Nat) : Int) = (((offset + i) % N : Nat) : Int) :=
      toInt32_eq_self _ (by omega) (by omega)
    obtain ⟨e, he⟩ : ∃ e, data[(offset + i) % N]? = some e := by
      rw [List.getElem?_eq_getElem (by omega)]; exact ⟨_, rfl⟩
    rw [select_loop]
    simp only [h1, h2, toSizeT_natCast (offset + i) (by omega), h3]
    rw [if_pos (by omega)]
    simp only [Int.toNat_ofNat, he, List.range'_succ, List.map_cons, List.find?_cons]
    rw [List.range'_succ, List.map_cons, List.find?_cons] at hsome
    by_cases hs : e.status = Status.Ready
    · simp [he, hs]
    · simp only [he, Option.map_some', Option.some.injEq, hs, decide_False] at hsome ⊢
      simp only [ne_eq, hs, not_false_eq_true, if_true]
      exact ih (i + 1) (by omega) hsome

/-- Where the truncated hash is a non-negative `int` and `offset + N` does not overflow,
`select` is the linear probing of the specification: it returns the first `Ready` slot in
cyclic order from its first probe. -/
theorem select_linear_probe (hash : List Nat → Nat) (key : List Nat) (N : Nat)
    (w : Worker) (file : File) (hN1 : 1 ≤ N) (hw : w.opened N) (hf : file.length = N)
    (hoff : 0 ≤ toInt32 ((hash key % 18446744073709551616 : Nat) : Int))
    (hno : toInt32 ((hash key % 18446744073709551616 : Nat) : Int) + (N : Int) < 2147483648)
    (hready : (cyclic_first_ready file (first_probe hash key N)).isSome = true) :
    (w.select hash N file key).map Prod.fst =
      (cyclic_first_ready file (first_probe hash key N)).map (fun k => (k : Int)) := by
  obtain ⟨off, hoffeq⟩ : ∃ off : Nat,
      toInt32 ((hash key % 18446744073709551616 : Nat) : Int) = (off : Int) :=
    ⟨_, (Int.toNat_of_nonneg hoff).symm⟩
  have hfp : first_probe hash key N = off % N := by
    unfold first_probe
    rw [hoffeq, toSizeT_natCast off (by omega)]
  have hlist : (List.range file.length).map (fun j => (off % N + j) % file.length) =
      (List.range' 0 N).map (fun j => (off + j) % N) := by
    rw [hf, List.range_eq_range']
    apply List.map_congr_left
    intro j _
    simp [Nat.add_mod]
  have hcyc : cyclic_first_ready file (off % N) =
      ((List.range' 0 N).map (fun j => (off + j) % N)).find?
        (fun k => decide (file[k]?.map Entry.status = some Status.Ready)) := by
    unfold cyclic_first_ready
    rw [hlist]
  rw [hfp, hcyc] at hready ⊢
  rw [select_of_opened hash N w file key N hN1 hw hf, hoffeq]
  have := select_loop_eq_find file N off hN1 (by omega) hf N 0 (by omega) hready
  simp only [Nat.cast_zero] at this
  rw [this]
  simp [Option.map_map, Function.comp]

/-! ## The lock file of the free-for-all initialisation -/

theorem tmp_lock_name_ne (uid : Nat) : tmp_lock_name uid ≠ IPE_LOCK_NAME := by
  intro h
  have hl := congrArg List.length h
  simp [tmp_lock_name, IPE_LOCK_NAME] at hl

theorem Fs.set_content_same (fs : Fs) (name : List Nat) (c : Option File) :
    (fs.set name c).content name = c := by
  simp [Fs.set]

theorem Fs.set_content_other (fs : Fs) (name x : List Nat) (c : Option File) (h : x ≠ name) :
    (fs.set name c).content x = fs.content x := by
  simp [Fs.set, h]

/-- As long as the lock file exists, `wait_for_lock` does not return `Success`. -/
theorem wait_for_lock_loop_ne_success (fs : Fs) (timeout : Int)
    (hlock : (fs.content IPE_LOCK_NAME).isSome = true) :
    ∀ (fuel : Nat) (passed : Int),
      fs.wait_for_lock_loop fuel timeout passed ≠ some Errors.Success := by
  intro fuel
  induction fuel with
  | zero => intro passed; simp [Fs.wait_for_lock_loop]
  | succ n ih =>
    intro passed
    rw [Fs.wait_for_lock_loop, if_pos hlock]
    split
    · simp
    · exact ih _

/-- What `is_master` does when neither its temporary file nor the lock file is in the
way: it returns `Success` and the lock file exists afterwards. -/
theorem is_master_wins (fs : Fs) (uid : Nat) (hlock : fs.content IPE_LOCK_NAME = none)
    (hw : fs.writable (tmp_lock_name uid) = true) :
    fs.is_master uid =
      (Errors.Success,
        ((fs.set (tmp_lock_name uid) (some [])).set (tmp_lock_name uid) none).set
          IPE_LOCK_NAME (some [])) := by
  have hne := tmp_lock_name_ne uid
  unfold Fs.is_master Fs.rename
  simp only [hw, Bool.not_true, Bool.false_eq_true, if_false, Fs.set_content_same]
  rw [Fs.set_content_other _ _ _ _ (Ne.symm hne), hlock]
  simp

/-- C12 (code defect): `init_ffa` called with the path absent and the lock file
`.ipe_lock` absent wins the election, initialises the path with `n` zero records and
returns `Success`, but it never removes the lock file: when it returns `.ipe_lock` still
exists, so no `wait_for_lock` on that state of the file system returns `Success`,
whatever its timeout and however long it polls. -/
theorem C12_init_ffa_leaves_lock (fs : Fs) (name : List Nat) (n : Nat) (timeout : Int)
    (uid fuel : Nat)
    (hpath : fs.content name = none) (hlock : fs.content IPE_LOCK_NAME = none)
    (hn1 : name ≠ IPE_LOCK_NAME)
    (hw1 : fs.writable (tmp_lock_name uid) = true) (hw2 : fs.writable name = true) :
    ∃ fs2 : Fs, fs.init_ffa fuel name n timeout uid = some (Errors.Success, fs2) ∧
      fs2.content name = some (List.replicate n Entry.zero) ∧
      fs2.content IPE_LOCK_NAME = some [] ∧
      ∀ (fuel2 : Nat) (timeout2 : Int),
        fs2.wait_for_lock fuel2 timeout2 ≠ some Errors.Success := by
  have hm := is_master_wins fs uid hlock hw1
  have hinit : fs.init_ffa fuel name n timeout uid =
      some ((fs.is_master uid).2.init_ipe name n) := by
    unfold Fs.init_ffa
    rw [hpath, hm]
    simp
  have hwr : (fs.is_master uid).2.writable name = true := by
    rw [hm]; exact hw2
  have hres : (fs.is_master uid).2.init_ipe name n =
      (Errors.Success, (fs.is_master uid).2.set name (some (List.replicate n Entry.zero))) := by
    unfold Fs.init_ipe
    rw [hwr]
    rfl
  have hlk : ((fs.is_master uid).2.set name (some (List.replicate n Entry.zero))).content
      IPE_LOCK_NAME = some [] := by
    rw [Fs.set_content_other _ _ _ _ (Ne.symm hn1), hm]
    exact Fs.set_content_same _ _ _
  refine ⟨_, by rw [hinit, hres], Fs.set_content_same _ _ _, hlk, ?_⟩
  intro fuel2 timeout2
  unfold Fs.wait_for_lock
  exact wait_for_lock_loop_ne_success _ _ (by rw [hlk]; rfl) fuel2 0

/-- Failing input of C12: `init_ffa("status", 5, -1)` in an empty writable directory. -/
theorem C12_init_ffa_leaves_lock_witness :
    fresh_fs.content status_path = none ∧ fresh_fs.content IPE_LOCK_NAME = none ∧
    status_path ≠ IPE_LOCK_NAME ∧
    (∃ fs2 : Fs, fresh_fs.init_ffa 0 status_path 5 (-1) 1234 = some (Errors.Success, fs2) ∧
      fs2.content status_path = some (List.replicate 5 Entry.zero) ∧
      fs2.content IPE_LOCK_NAME = some [] ∧
      ∀ (fuel2 : Nat) (timeout2 : Int),
        fs2.wait_for_lock fuel2 timeout2 ≠ some Errors.Success) ∧
    (((fresh_fs.is_master 1).2.init_ffa 10 status_path 5 3 2).map Prod.fst =
      some Errors.TimedOut) :=
  ⟨by decide, by decide, by decide,
    C12_init_ffa_leaves_lock fresh_fs status_path 5 (-1) 1234 0 (by decide) (by decide)
      (by decide) (by decide) (by decide),
    by decide⟩

/-! ## What a call does to the handle and to the file -/

theorem is_worker_congr (w w2 : Worker) (hid : w2.worker_id = w.worker_id)
    (hlen : w2.data.length = w.data.length) : w2.is_worker = w.is_worker := by
  unfold Worker.is_worker
  rw [hid, hlen]

/-- The handle that the barrier loop returns is the handle it was given with the file
content as its data. -/
theorem rendezvous_loop_handle (N : Nat) (file : File) (hf : file.length = N) :
    ∀ (fuel : Nat) (w : Worker) (timeout passed ready res : Int) (w2 : Worker),
      w.opened N → w.rendezvous_loop fuel file timeout passed ready = some (res, w2) →
      w2 = { w with data := file } := by
  intro fuel
  induction fuel with
  | zero => intro w t p r res w2 _ h; simp [Worker.rendezvous_loop] at h
  | succ n ih =>
    intro w t p r res w2 hw h
    rw [Worker.rendezvous_loop] at h
    simp only [read_opened w file N hw hf] at h
    split_ifs at h
    all_goals first
      | exact ih (Worker.mk w.worker_id w.n_worker w.handle file w.static_e) _ _ _ _ _
          (opened_read w file N hw hf) h
      | (simp only [Option.some.injEq, Prod.mk.injEq] at h; exact h.2.symm)

/-- A reading call that returns leaves the file alone and replaces the whole in-memory
data of the handle by the file content. -/
theorem call_reader (hash : List Nat → Nat) (w : Worker) (file : File) (N : Nat) (c : Call)
    (hw : w.opened N) (hf : file.length = N) (hc : c.is_reader = true) :
    ∀ (w2 : Worker) (f2 : File), w.call hash file c = some (w2, f2) →
      w2 = { w with data := file } ∧ f2 = file := by
  intro w2 f2 h
  cases c <;> simp [Call.is_reader] at hc
  · -- values
    simp only [Worker.call, Worker.values, hw.1, Bool.not_true, Bool.false_eq_true, if_false,
      read_opened w file N hw hf, Option.some.injEq, Prod.mk.injEq] at h
    exact ⟨by rw [← h.1, hw.1], h.2.symm⟩
  · -- read
    simp only [Worker.call, read_opened w file N hw hf, Option.some.injEq,
      Prod.mk.injEq] at h
    exact ⟨h.1.symm, h.2.symm⟩
  · -- status
    simp only [Worker.call, Worker.status, hw.1, Bool.not_true, Bool.false_eq_true, if_false,
      read_opened w file N hw hf, Option.some.injEq, Prod.mk.injEq] at h
    exact ⟨by rw [← h.1, hw.1], h.2.symm⟩
  · -- rendezvous
    rename_i fuel timeout
    simp only [Worker.call, Worker.rendezvous, hw.1, Bool.not_true, Bool.false_eq_true,
      if_false] at h
    cases hr : w.rendezvous_loop fuel file timeout 0 0 with
    | none => rw [hr] at h; simp at h
    | some r =>
      rw [hr] at h
      simp only [Option.map_some', Option.some.injEq, Prod.mk.injEq] at h
      have := rendezvous_loop_handle N file hf fuel w timeout 0 0 r.1 r.2 hw hr
      exact ⟨by rw [← h.1, this], h.2.symm⟩
  · -- select
    rename_i fuel key
    simp only [Worker.call, Worker.select, read_opened w file N hw hf] at h
    split at h
    · simp at h
    · cases hs : select_loop fuel file w.n_worker
          (toInt32 ((hash key % 18446744073709551616 : Nat) : Int)) 0 with
      | none => rw [hs] at h; simp at h
      | some k =>
        rw [hs] at h
        simp only [Option.map_some', Option.some.injEq, Prod.mk.injEq] at h
        exact ⟨h.1.symm, h.2.symm⟩

theorem acquire_lock_end_handle (w : Worker) (file : File) (N : Nat) (hw : w.opened N)
    (hf : file.length = N) :
    (w.acquire_lock_end file).2.opened N ∧
    (w.acquire_lock_end file).2.worker_id = w.worker_id := by
  have o1 := opened_read w file N hw hf
  unfold Worker.acquire_lock_end
  simp only [read_opened w file N hw hf]
  split
  · exact ⟨opened_modify _ _ N o1, modify_worker_worker_id _ _⟩
  · exact ⟨o1, rfl⟩

theorem acquire_lock_eq (w : Worker) (file : File) (hisw : w.is_worker = true)
    (hh : w.handle = true) :
    w.acquire_lock file =
      (((w.acquire_lock_begin file).1.acquire_lock_end (w.acquire_lock_begin file).2).1,
        ((w.acquire_lock_begin file).1.acquire_lock_end (w.acquire_lock_begin file).2).2,
        (w.acquire_lock_begin file).2) := by
  unfold Worker.acquire_lock
  simp [is_monitor_eq_false w hisw, hh]

/-- Frame of a call: the handle stays an open handle with the same index, the file keeps
its length, only the slot of the caller can change, and it can change only under `write`,
`acquire_lock` and `unlock` of a worker. -/
theorem call_frame (hash : List Nat → Nat) (w : Worker) (file : File) (N : Nat) (c : Call)
    (hw : w.opened N) (hf : file.length = N) :
    ∀ (w2 : Worker) (f2 : File), w.call hash file c = some (w2, f2) →
      w2.opened N ∧ f2.length = N ∧ w2.worker_id = w.worker_id ∧
      (c.persists = false → f2 = file) ∧
      (w.is_worker = false → f2 = file) ∧
      (∀ j : Nat, j ≠ w.worker_id.toNat → f2[j]? = file[j]?) := by
  intro w2 f2 h
  by_cases hs : c.is_setter = true
  · obtain ⟨f, hsf⟩ := call_setter hash w file c hs
    rw [hsf] at h
    simp only [Option.some.injEq, Prod.mk.injEq] at h
    rw [← h.1, ← h.2]
    exact ⟨opened_modify w f N hw, hf, modify_worker_worker_id _ _, fun _ => rfl,
      fun _ => rfl, fun _ _ => rfl⟩
  by_cases hr : c.is_reader = true
  · obtain ⟨e1, e2⟩ := call_reader hash w file N c hw hf hr w2 f2 h
    rw [e1, e2]
    exact ⟨opened_read w file N hw hf, hf, rfl, fun _ => rfl, fun _ => rfl, fun _ _ => rfl⟩
  cases c <;> simp [Call.is_setter] at hs <;> simp [Call.is_reader] at hr
  · -- acquire_lock
    simp only [Worker.call, Option.some.injEq, Prod.mk.injEq] at h
    cases hisw : w.is_worker
    · have : w.acquire_lock file = (Errors.Success, w, file) := by
        unfold Worker.acquire_lock; simp [is_monitor_eq_true w hisw]
      rw [this] at h
      rw [← h.1, ← h.2]
      exact ⟨hw, hf, rfl, fun _ => rfl, fun _ => rfl, fun _ _ => rfl⟩
    · rw [acquire_lock_eq w file hisw hw.1] at h
      obtain ⟨b1, b2, b3, b4⟩ := acquire_lock_begin_spec w file N hw hisw hf
      have hlen : (w.acquire_lock_begin file).2.length = N := by rw [b1]; simp [hf]
      obtain ⟨e1, e2⟩ := acquire_lock_end_handle _ _ N b2 hlen
      rw [← h.1, ← h.2]
      refine ⟨e1, hlen, by rw [e2, b4], ?_, ?_, ?_⟩
      · intro hp; simp [Call.persists] at hp
      · intro hm; simp at hm
      · intro j hj
        simp only [b1]
        rw [List.getElem?_set_ne (Ne.symm hj)]
  · -- unlock
    simp only [Worker.call, Option.some.injEq, Prod.mk.injEq] at h
    cases hisw : w.is_worker
    · have : w.unlock file = (Errors.Success, w, file) := by
        unfold Worker.unlock; simp [is_monitor_eq_true w hisw]
      rw [this] at h
      rw [← h.1, ← h.2]
      exact ⟨hw, hf, rfl, fun _ => rfl, fun _ => rfl, fun _ _ => rfl⟩
    · obtain ⟨u1, u2, u3, u4⟩ := unlock_spec w file N hw hisw hf
      rw [← h.1, ← h.2]
      refine ⟨u1, ?_, u3, ?_, ?_, ?_⟩
      · rcases u4 with h4 | h4 <;> rw [h4] <;> simp [hf]
      · intro hp; simp [Call.persists] at hp
      · intro hm; simp at hm
      · intro j hj
        rcases u4 with h4 | h4 <;> rw [h4]
        rw [List.getElem?_set_ne (Ne.symm hj)]
  · -- write
    simp only [Worker.call, Option.some.injEq, Prod.mk.injEq] at h
    cases hisw : w.is_worker
    · rw [write_of_monitor w file hisw] at h
      rw [← h.1, ← h.2]
      exact ⟨hw, hf, rfl, fun _ => rfl, fun _ => rfl, fun _ _ => rfl⟩
    · rw [write_set w file N hw hisw hf] at h
      rw [← h.1, ← h.2]
      refine ⟨hw, by simp [hf], rfl, ?_, ?_, ?_⟩
      · intro hp; simp [Call.persists] at hp
      · intro hm; simp at hm
      · intro j hj
        rw [List.getElem?_set_ne (Ne.symm hj)]

/-! ## Status `Stopped` on file -/

theorem World.wf_live (s : World) (N : Nat) (hwf : s.wf N) (h : Nat) (w : Worker)
    (hh : s.handles[h]? = some (some w)) : w.opened N :=
  hwf.2 (some w) (List.getElem?_mem hh) w rfl

theorem World.wf_set (s : World) (N : Nat) (hwf : s.wf N) (h : Nat) (o : Option Worker)
    (f2 : File) (hf2 : f2.length = N) (ho : ∀ w ∈ o, w.opened N) :
    World.wf { file := f2, handles := s.handles.set h o } N := by
  refine ⟨hf2, ?_⟩
  intro x hx w hw
  rcases List.mem_or_eq_of_mem_set hx with hm | he
  · exact hwf.2 x hm w hw
  · subst he; exact ho w hw

/-- An operation that spares `slot` keeps the world well formed and keeps status `Stopped`
in file slot `slot`. -/
theorem step_spares (hash : List Nat → Nat) (N slot : Nat) (s : World) (ev : Event)
    (hwf : s.wf N) (hst : s.file[slot]?.map Entry.status = some Status.Stopped)
    (hsp : ev.spares s slot = true) :
    ∀ s2 : World, s.step hash N ev = some s2 →
      s2.wf N ∧ s2.file[slot]?.map Entry.status = some Status.Stopped := by
  intro s2 h
  cases ev with
  | construct wid =>
    simp only [Event.spares, decide_eq_true_eq] at hsp
    simp only [World.step, Option.some.injEq] at h
    obtain ⟨hop, hwk, hmon⟩ := ctor_spec wid s.file N hwf.1
    rw [← h]
    by_cases hw : 0 ≤ wid ∧ wid.toNat < N
    · obtain ⟨h2, _, _⟩ := hwk hw
      rw [h2]
      refine ⟨⟨by simp [hwf.1], ?_⟩, ?_⟩
      · intro x hx w hxw
        simp only [List.mem_append, List.mem_singleton] at hx
        rcases hx with hx | hx
        · exact hwf.2 x hx w hxw
        · subst hx
          simp only [Option.mem_def, Option.some.injEq] at hxw
          rw [← hxw]; exact hop
      · simp only [Option.getD_some]
        rw [List.getElem?_set_ne (by omega)]
        exact hst
    · obtain ⟨h2, _⟩ := hmon hw
      rw [h2]
      refine ⟨⟨hwf.1, ?_⟩, hst⟩
      intro x hx w hxw
      simp only [List.mem_append, List.mem_singleton] at hx
      rcases hx with hx | hx
      · exact hwf.2 x hx w hxw
      · subst hx
        simp only [Option.mem_def, Option.some.injEq] at hxw
        rw [← hxw]; exact hop
  | call hn c =>
    simp only [World.step] at h
    cases hh : s.handles[hn]? with
    | none => rw [hh] at h; simp only [Option.some.injEq] at h; rw [← h]; exact ⟨hwf, hst⟩
    | some o =>
      cases o with
      | none => rw [hh] at h; simp only [Option.some.injEq] at h; rw [← h]; exact ⟨hwf, hst⟩
      | some w =>
        rw [hh] at h
        dsimp only at h
        simp only [Event.spares, hh, Bool.or_eq_true, decide_eq_true_eq,
          Bool.not_eq_true'] at hsp
        have hop := World.wf_live s N hwf hn w hh
        cases hc : w.call hash s.file c with
        | none => rw [hc] at h; simp at h
        | some r =>
          rw [hc] at h
          simp only [Option.map_some', Option.some.injEq] at h
          obtain ⟨c1, c2, c3, c4, c5, c6⟩ := call_frame hash w s.file N c hop hwf.1 r.1 r.2 hc
          rw [← h]
          refine ⟨World.wf_set s N hwf hn (some r.1) r.2 c2 ?_, ?_⟩
          · intro x hx
            simp only [Option.mem_def, Option.some.injEq] at hx
            rw [← hx]; exact c1
          · simp only
            rcases hsp with hid | hnp
            · cases hisw : w.is_worker
              · rw [c5 hisw]; exact hst
              · have h0 := ((is_worker_iff w).mp hisw).1
                rw [c6 slot (by omega)]; exact hst
            · rw [c4 hnp]; exact hst
  | destroy hn =>
    simp only [World.step] at h
    cases hh : s.handles[hn]? with
    | none => rw [hh] at h; simp only [Option.some.injEq] at h; rw [← h]; exact ⟨hwf, hst⟩
    | some o =>
      cases o with
      | none => rw [hh] at h; simp only [Option.some.injEq] at h; rw [← h]; exact ⟨hwf, hst⟩
      | some w =>
        rw [hh] at h
        dsimp only at h
        simp only [Option.some.injEq] at h
        have hop := World.wf_live s N hwf hn w hh
        have hlt : w.is_worker = true → w.worker_id.toNat < N := by
          intro hisw
          have := ((is_worker_iff w).mp hisw).2
          rw [hop.2.2] at this; exact this
        rw [← h]
        cases hisw : w.is_worker
        · have hd : w.dtor s.file = s.file := by unfold Worker.dtor; simp [hisw]
          rw [hd]
          exact ⟨World.wf_set s N hwf hn none s.file hwf.1 (by intro x hx; simp at hx), hst⟩
        · rw [dtor_of_worker w s.file N hop hisw hwf.1]
          refine ⟨World.wf_set s N hwf hn none _ (by simp [hwf.1])
            (by intro x hx; simp at hx), ?_⟩
          simp only
          by_cases hj : slot = w.worker_id.toNat
          · rw [hj]
            simp [List.getElem?_set, hwf.1, hlt hisw]
          · rw [List.getElem?_set_ne (Ne.symm hj)]; exact hst

/-- C14, as stated, fails: on the file of main.cpp worker 0 is opened and destroyed, which
leaves slot 0 `Stopped`, and a new handle for worker 0 makes the slot `Ready` again; so
does a live handle with `set_status(Ready); write()` after it published `Stopped`. -/
theorem C14_stopped_not_terminal_counterexample :
    (World.run (fun _ => 0) 5 main_world [Event.construct 0, Event.destroy 0]).map
      (fun s => s.file[0]?.map Entry.status) = some (some Status.Stopped) ∧
    (World.run (fun _ => 0) 5 main_world
      [Event.construct 0, Event.destroy 0, Event.construct 0]).map
      (fun s => s.file[0]?.map Entry.status) = some (some Status.Ready) ∧
    (World.run (fun _ => 0) 5 main_world
      [Event.construct 0, Event.call 0 (Call.set_status Status.Stopped),
       Event.call 0 Call.write]).map
      (fun s => s.file[0]?.map Entry.status) = some (some Status.Stopped) ∧
    (World.run (fun _ => 0) 5 main_world
      [Event.construct 0, Event.call 0 (Call.set_status Status.Stopped),
       Event.call 0 Call.write, Event.call 0 (Call.set_status Status.Ready),
       Event.call 0 Call.write]).map
      (fun s => s.file[0]?.map Entry.status) = some (some Status.Ready) := by
  decide

/-- C14, amended: once file slot `slot` has status `Stopped`, it has status `Stopped` after
every sequence of public operations in which no worker handle with index `slot` is
constructed and no handle with index `slot` calls `write`, `acquire_lock` or `unlock`:
construction of other handles, every call of a monitor or of a worker with another index,
the setters and the reading calls of a handle with index `slot`, and every destruction
(that of a handle with index `slot` included). It holds after every initial part of the
sequence. -/
theorem C14_stopped_kept (hash : List Nat → Nat) (N slot : Nat) (pre : List Event) :
    ∀ (s : World) (suf : List Event), s.wf N →
      s.file[slot]?.map Entry.status = some Status.Stopped →
      World.spared hash N slot s (pre ++ suf) = true →
      ∀ s1 : World, World.run hash N s pre = some s1 →
        s1.file[slot]?.map Entry.status = some Status.Stopped := by
  induction pre with
  | nil =>
    intro s suf _ hst _ s1 h
    simp only [World.run, Option.some.injEq] at h
    rw [← h]; exact hst
  | cons ev rest ih =>
    intro s suf hwf hst hsp s1 h
    simp only [List.cons_append, World.spared, Bool.and_eq_true] at hsp
    simp only [World.run] at h
    cases hs : s.step hash N ev with
    | none => rw [hs] at h; simp at h
    | some s2 =>
      rw [hs] at h hsp
      obtain ⟨w2, st2⟩ := step_spares hash N slot s ev hwf hst hsp.1 s2 hs
      exact ih s2 suf w2 st2 hsp.2 s1 h

/-- Witness of C14 (amended): after worker 0 of main.cpp was opened and destroyed, another
worker and a monitor are opened, publish, lock, wait at the barrier and leave; slot 0 is
`Stopped` at the end. -/
theorem C14_stopped_kept_witness :
    (World.mk (open_close 0 (main_init.getD []) 5) []).wf 5 ∧
    (open_close 0 (main_init.getD []) 5)[0]?.map Entry.status = some Status.Stopped ∧
    World.spared (fun _ => 0) 5 0 (World.mk (open_close 0 (main_init.getD []) 5) [])
      ([Event.construct 1, Event.call 0 (Call.set_time 7), Event.call 0 Call.write,
        Event.call 0 Call.acquire_lock, Event.construct (-1),
        Event.call 1 (Call.rendezvous 3 1), Event.call 1 Call.write,
        Event.destroy 0] ++ []) = true ∧
    (∀ s1 : World,
      World.run (fun _ => 0) 5 (World.mk (open_close 0 (main_init.getD []) 5) [])
        [Event.construct 1, Event.call 0 (Call.set_time 7), Event.call 0 Call.write,
          Event.call 0 Call.acquire_lock, Event.construct (-1),
          Event.call 1 (Call.rendezvous 3 1), Event.call 1 Call.write,
          Event.destroy 0] = some s1 →
      s1.file[0]?.map Entry.status = some Status.Stopped) ∧
    (World.run (fun _ => 0) 5 (World.mk (open_close 0 (main_init.getD []) 5) [])
      [Event.construct 1, Event.call 0 (Call.set_time 7), Event.call 0 Call.write,
        Event.call 0 Call.acquire_lock, Event.construct (-1),
        Event.call 1 (Call.rendezvous 3 1), Event.call 1 Call.write,
        Event.destroy 0]).map (fun s => s.file.map Entry.status) =
      some [Status.Stopped, Status.Stopped, Status.None, Status.None, Status.None] :=
  ⟨by decide, by decide, by decide,
    C14_stopped_kept (fun _ => 0) 5 0
      [Event.construct 1, Event.call 0 (Call.set_time 7), Event.call 0 Call.write,
        Event.call 0 Call.acquire_lock, Event.construct (-1),
        Event.call 1 (Call.rendezvous 3 1), Event.call 1 Call.write,
        Event.destroy 0]
      (World.mk (open_close 0 (main_init.getD []) 5) []) [] (by decide) (by decide)
      (by decide),
    by decide⟩

/-! ## Stale lock flags -/

theorem acquire_lock_end_locked (w : Worker) (file : File) (N : Nat) (hw : w.opened N)
    (hf : file.length = N) (hsum : lock_sum file < 2147483648) (hbig : 1 < lock_sum file) :
    w.acquire_lock_end file =
      (Errors.Locked,
        Worker.modify_worker (Worker.mk w.worker_id w.n_worker w.handle file w.static_e)
          (fun e => { e with lock := 0 })) := by
  unfold Worker.acquire_lock_end
  simp only [read_opened w file N hw hf]
  rw [count_locks_eq_lock_sum _ hsum]
  rw [if_pos (by omega)]

theorem unlock_of_clear (w : Worker) (file : File) (hl : w.worker.lock = 0) :
    w.unlock file = (Errors.Success, w, file) := by
  unfold Worker.unlock
  split
  · rfl
  · rw [if_neg (by omega)]

/-- In a stale state `acquire_lock` of a live handle returns `Locked`, writes the own
record with flag 1 and ends with the in-memory flag at 0. -/
theorem stale_acquire (N a b : Nat) (hN : N < 2147483648) (file : File) (w : Worker)
    (hf : file.length = N) (hab : a ≠ b)
    (ha : file[a]?.map Entry.lock = some 1) (hb : file[b]?.map Entry.lock = some 1)
    (hle : ∀ e ∈ file, e.lock ≤ 1) (hw : w.opened N) (hisw : w.is_worker = true) :
    (w.acquire_lock file).1 = Errors.Locked ∧
    (w.acquire_lock file).2.2 = file.set w.worker_id.toNat (w.worker.with_lock 1) ∧
    (w.acquire_lock file).2.1.opened N ∧
    (w.acquire_lock file).2.1.is_worker = true ∧
    (w.acquire_lock file).2.1.worker.lock = 0 ∧
    (file.set w.worker_id.toNat (w.worker.with_lock 1))[a]?.map Entry.lock = some 1 ∧
    (file.set w.worker_id.toNat (w.worker.with_lock 1))[b]?.map Entry.lock = some 1 ∧
    (∀ e ∈ file.set w.worker_id.toNat (w.worker.with_lock 1), e.lock ≤ 1) := by
  have hlt := ((is_worker_iff w).mp hisw).2
  rw [hw.2.2] at hlt
  obtain ⟨b1, b2, b3, b4⟩ := acquire_lock_begin_spec w file N hw hisw hf
  have hflag : ∀ c : Nat, file[c]?.map Entry.lock = some 1 →
      (file.set w.worker_id.toNat (w.worker.with_lock 1))[c]?.map Entry.lock = some 1 := by
    intro c hc
    by_cases hci : w.worker_id.toNat = c
    · subst hci
      simp [List.getElem?_set, hf, hlt, Entry.with_lock]
    · rw [List.getElem?_set_ne hci]; exact hc
  have hle1 : ∀ e ∈ file.set w.worker_id.toNat (w.worker.with_lock 1), e.lock ≤ 1 := by
    intro e he
    rcases List.mem_or_eq_of_mem_set he with hm | heq
    · exact hle e hm
    · rw [heq]; simp [Entry.with_lock]
  have hlen1 : (file.set w.worker_id.toNat (w.worker.with_lock 1)).length = N := by
    simp [hf]
  have hsum : lock_sum (file.set w.worker_id.toNat (w.worker.with_lock 1)) < 2147483648 := by
    have := lock_sum_le_length _ (fun j e he => hle1 e (List.getElem?_mem he))
    omega
  have hbig : 1 < lock_sum (file.set w.worker_id.toNat (w.worker.with_lock 1)) := by
    have h1 := hflag a ha
    have h2 := hflag b hb
    cases hx : (file.set w.worker_id.toNat (w.worker.with_lock 1))[a]? with
    | none => rw [hx] at h1; simp at h1
    | some e1 =>
      cases hy : (file.set w.worker_id.toNat (w.worker.with_lock 1))[b]? with
      | none => rw [hy] at h2; simp at h2
      | some e2 =>
        rw [hx] at h1; rw [hy] at h2
        simp only [Option.map_some', Option.some.injEq] at h1 h2
        exact lock_sum_two _ a b e1 e2 hab hx hy h1 h2
  have hend := acquire_lock_end_locked (w.acquire_lock_begin file).1
    (file.set w.worker_id.toNat (w.worker.with_lock 1)) N b2 hlen1 hsum hbig
  have hisw2 : Worker.is_worker (Worker.mk (w.acquire_lock_begin file).1.worker_id
      (w.acquire_lock_begin file).1.n_worker (w.acquire_lock_begin file).1.handle
      (file.set w.worker_id.toNat (w.worker.with_lock 1))
      (w.acquire_lock_begin file).1.static_e) = true :=
    (is_worker_congr (w.acquire_lock_begin file).1
      (Worker.mk (w.acquire_lock_begin file).1.worker_id
        (w.acquire_lock_begin file).1.n_worker (w.acquire_lock_begin file).1.handle
        (file.set w.worker_id.toNat (w.worker.with_lock 1))
        (w.acquire_lock_begin file).1.static_e) rfl (by rw [b2.2.2]; simp [hf])).trans b3
  rw [acquire_lock_eq w file hisw hw.1, b1, hend]
  refine ⟨rfl, rfl, ?_, ?_, ?_, hflag a ha, hflag b hb, hle1⟩
  · exact opened_modify _ _ N (opened_read _ _ N b2 hlen1)
  · exact is_worker_modify_true _ _ hisw2
  · show (Worker.modify_worker _ _).worker.lock = 0
    rw [worker_modify _ _ hisw2]

/-- A call of `acquire_lock` or `unlock` in a stale state returns and leaves a stale
state. -/
theorem step_stale (hash : List Nat → Nat) (N a b : Nat) (hN : N < 2147483648) (s : World)
    (ev : Event) (hst : s.stale N a b) (hev : ev.is_lock_call = true) :
    ∃ s2 : World, s.step hash N ev = some s2 ∧ s2.stale N a b := by
  obtain ⟨hwf, hab, ha, hb, hle, hh⟩ := id hst
  cases ev with
  | construct wid => simp [Event.is_lock_call] at hev
  | destroy hn => simp [Event.is_lock_call] at hev
  | call hn c =>
    cases hg : s.handles[hn]? with
    | none => exact ⟨s, by simp [World.step, hg], hst⟩
    | some o =>
      cases o with
      | none => exact ⟨s, by simp [World.step, hg], hst⟩
      | some w =>
        have hop := World.wf_live s N hwf hn w hg
        obtain ⟨hisw, hl0⟩ := hh (some w) (List.getElem?_mem hg) w rfl
        cases c <;> simp [Event.is_lock_call] at hev
        · -- acquire_lock
          obtain ⟨q1, q2, q3, q4, q5, q6, q7, q8⟩ :=
            stale_acquire N a b hN s.file w hwf.1 hab ha hb hle hop hisw
          refine ⟨World.mk (w.acquire_lock s.file).2.2
            (s.handles.set hn (some (w.acquire_lock s.file).2.1)),
            by simp only [World.step, hg, Worker.call, Option.map_some'], ?_⟩
          refine ⟨World.wf_set s N hwf hn _ _ (by rw [q2]; simp [hwf.1]) ?_, hab, ?_, ?_, ?_, ?_⟩
          · intro x hx
            simp only [Option.mem_def, Option.some.injEq] at hx
            rw [← hx]; exact q3
          · simp only; rw [q2]; exact q6
          · simp only; rw [q2]; exact q7
          · simp only; rw [q2]; exact q8
          · intro x hx v hv
            rcases List.mem_or_eq_of_mem_set hx with hm | heq
            · exact hh x hm v hv
            · subst heq
              simp only [Option.mem_def, Option.some.injEq] at hv
              rw [← hv]; exact ⟨q4, q5⟩
        · -- unlock
          have hu := unlock_of_clear w s.file hl0
          refine ⟨World.mk (w.unlock s.file).2.2
            (s.handles.set hn (some (w.unlock s.file).2.1)),
            by simp only [World.step, hg, Worker.call, Option.map_some'], ?_⟩
          rw [hu]
          refine ⟨World.wf_set s N hwf hn _ _ hwf.1 ?_, hab, ha, hb, hle, ?_⟩
          · intro x hx
            simp only [Option.mem_def, Option.some.injEq] at hx
            rw [← hx]; exact hop
          · intro x hx v hv
            rcases List.mem_or_eq_of_mem_set hx with hm | heq
            · exact hh x hm v hv
            · subst heq
              simp only [Option.mem_def, Option.some.injEq] at hv
              rw [← hv]; exact ⟨hisw, hl0⟩

/-- C19: stale lock flags block the lock for good. From a state in which two distinct file
slots `a` and `b` carry lock flag 1 (no flag on file exceeding 1) while every live handle
is an open worker handle whose in-memory flag for its own slot is 0, every sequence of
`acquire_lock` and `unlock` calls by these handles returns and ends in such a state again:
the file flags of `a` and `b` are still 1, and in the state reached every `acquire_lock`
returns `Locked` and every `unlock` returns without changing the handle or the file.
`N < 2^31` keeps the `int` counter `locks` exact. -/
theorem C19_stale_flags_block (hash : List Nat → Nat) (N a b : Nat) (hN : N < 2147483648)
    (evs : List Event) :
    ∀ s : World, s.stale N a b → (∀ ev ∈ evs, ev.is_lock_call = true) →
      ∃ s2 : World, World.run hash N s evs = some s2 ∧ s2.stale N a b ∧
        ∀ h ∈ s2.handles, ∀ w ∈ h,
          (w.acquire_lock s2.file).1 = Errors.Locked ∧
          w.unlock s2.file = (Errors.Success, w, s2.file) := by
  induction evs with
  | nil =>
    intro s hst _
    refine ⟨s, rfl, hst, ?_⟩
    intro h hh w hw
    obtain ⟨hwf, hab, ha, hb, hle, hl⟩ := id hst
    obtain ⟨hisw, hl0⟩ := hl h hh w hw
    exact ⟨(stale_acquire N a b hN s.file w hwf.1 hab ha hb hle (hwf.2 h hh w hw) hisw).1,
      unlock_of_clear w s.file hl0⟩
  | cons ev rest ih =>
    intro s hst hev
    obtain ⟨s1, h1, st1⟩ := step_stale hash N a b hN s ev hst (hev ev (by simp))
    obtain ⟨s2, h2, st2, hall⟩ := ih s1 st1 (fun e he => hev e (by simp [he]))
    exact ⟨s2, by simp only [World.run, h1]; exact h2, st2, hall⟩

/-- Witness of C19: in `stale_world` slots 1 and 2 are stale; the three workers go on
calling `acquire_lock` and `unlock`, the flags on file end as `[1, 1, 1]`. -/
theorem C19_stale_flags_block_witness :
    (3 < 2147483648) ∧ stale_world.stale 3 1 2 ∧
    (∀ ev ∈ [Event.call 1 Call.acquire_lock, Event.call 1 Call.unlock,
        Event.call 0 Call.acquire_lock, Event.call 2 Call.unlock], ev.is_lock_call = true) ∧
    (∃ s2 : World,
      World.run (fun _ => 0) 3 stale_world
        [Event.call 1 Call.acquire_lock, Event.call 1 Call.unlock,
          Event.call 0 Call.acquire_lock, Event.call 2 Call.unlock] = some s2 ∧
      s2.stale 3 1 2 ∧
      ∀ h ∈ s2.handles, ∀ w ∈ h,
        (w.acquire_lock s2.file).1 = Errors.Locked ∧
        w.unlock s2.file = (Errors.Success, w, s2.file)) ∧
    (World.run (fun _ => 0) 3 stale_world
      [Event.call 1 Call.acquire_lock, Event.call 1 Call.unlock,
        Event.call 0 Call.acquire_lock, Event.call 2 Call.unlock]).map
      (fun s => s.file.map Entry.lock) = some [1, 1, 1] :=
  ⟨by decide, by decide, by decide,
    C19_stale_flags_block (fun _ => 0) 3 1 2 (by decide)
      [Event.call 1 Call.acquire_lock, Event.call 1 Call.unlock,
        Event.call 0 Call.acquire_lock, Event.call 2 Call.unlock] stale_world (by decide)
      (by decide),
    by decide⟩

end ipe
